import Mathlib

/-!
Verification of the mold linker pipeline (`src/main.cc`).

This file shallow-embeds the layout and relocation-scanning phases of the
linker: `set_osec_offsets`, `set_isec_offsets`, `bin_sections`, `split`,
`scan_rels_static`, `scan_rels_dynamic`, the sequential prefix-sum in
`scan_rels`, the synthetic-table writer `write_got_plt`, and the option
helper `parse_filler`.  Machine `u64`/`u32` quantities are modelled as `Nat`
(all subtractions in the embedded code are guarded so they cannot wrap);
the one place where integer truncation is semantically relevant — the
`(u8)` cast in `parse_filler` — is modelled explicitly as `% 256` on `Int`.
-/

set_option maxHeartbeats 4000000

namespace Mold

/-- Modelled from the spec: `align_to val align` (defined in `mold.h`, which
is outside the provided sources) rounds `val` up to the next multiple of
`align`; the spec's layout rules say "Align both `fileoff` and `vaddr` to
`sh_addralign`" and "round `vaddr` up to page size".  `align` is expected to
be a power of two; `align = 0` is treated as "no alignment". -/
def align_to (val align : Nat) : Nat :=
  if align = 0 then val else val + (align - val % align) % align

/-- Page size used for layout (`PAGE_SIZE` in `mold.h`; the spec fixes it to 4096). -/
def PAGE_SIZE : Nat := 4096

/-- Size in bytes of one GOT/GOTPLT slot (`GOT_SIZE` in `mold.h`; the spec says 8). -/
def GOT_SIZE : Nat := 8

/-- Modelled from the spec: size in bytes of one PLT entry (`PLT_SIZE` in
`mold.h`, outside the provided sources).  Its concrete value does not matter
for any claim below; 16 is the standard x86-64 PLT entry size. -/
def PLT_SIZE : Nat := 16

/-- `sizeof(ELF64LE::Rela)`: 24 bytes (fixed by the ELF64 format). -/
def RELA_SIZE : Nat := 24

/-- `sizeof(ELF64LE::Sym)`: 24 bytes (fixed by the ELF64 format). -/
def SYM_SIZE : Nat := 24

/-- ELF constants used by `main.cc` (values fixed by the ELF specification). -/
def SHT_NOBITS : Nat := 8

def SHF_ALLOC : Nat := 2

def SHF_TLS : Nat := 1024

def STT_GNU_IFUNC : Nat := 10

def STT_FUNC : Nat := 2

def R_X86_64_GLOB_DAT : Nat := 6

def R_X86_64_JUMP_SLOT : Nat := 7

def R_X86_64_IRELATIVE : Nat := 37

/-! ### `split` (main.cc lines 146-158)

The C++ loop `while (arr.size() >= unit) { vec.push_back(arr.slice(0, unit));
arr = arr.slice(unit); }` followed by pushing the non-empty remainder.
`split_fuel` is the step-indexed semantics of that loop (each recursive call
is one loop iteration; `none` means the fuel ran out before the loop
exited), and `split` is the total function the loop computes when
`unit ≥ 1`. -/

def split_fuel {α : Type} (unit : Nat) : Nat → List α → List (List α) → Option (List (List α))
  | 0, _, _ => none
  | fuel + 1, arr, acc =>
    if unit ≤ arr.length then
      split_fuel unit fuel (arr.drop unit) (acc ++ [arr.take unit])
    else if arr.isEmpty then some acc else some (acc ++ [arr])

def split {α : Type} (unit : Nat) (hu : 0 < unit) (arr : List α) : List (List α) :=
  if h : unit ≤ arr.length then
    arr.take unit :: split unit hu (arr.drop unit)
  else if arr.isEmpty then [] else [arr]
termination_by arr.length
decreasing_by simp only [List.length_drop]; omega

/-- The shard size computed by `bin_sections`: `(files.size() + 127) / 128`. -/
def bin_unit (n : Nat) : Nat := (n + 127) / 128

/-! ### Output chunks and `set_osec_offsets` (main.cc lines 566-600) -/

structure Shdr where
  sh_type : Nat := 0
  sh_flags : Nat := 0
  sh_addralign : Nat := 1
  sh_size : Nat := 0
  sh_offset : Nat := 0
  sh_addr : Nat := 0
deriving Repr, DecidableEq

structure OutputChunk where
  starts_new_ptload : Bool := false
  shdr : Shdr := {}
deriving Repr, DecidableEq

structure OsecState where
  fileoff : Nat
  vaddr : Nat
deriving Repr, DecidableEq

/-- The congruence fix on `fileoff` performed for non-NOBITS chunks
(main.cc lines 579-582): realign `fileoff` so that
`fileoff % PAGE_SIZE == vaddr % PAGE_SIZE`, advancing within the current
page when possible and across a page boundary otherwise. -/
def fix_fileoff (fileoff vaddr : Nat) : Nat :=
  if vaddr % PAGE_SIZE > fileoff % PAGE_SIZE then
    fileoff + (vaddr % PAGE_SIZE - fileoff % PAGE_SIZE)
  else if vaddr % PAGE_SIZE < fileoff % PAGE_SIZE then
    align_to fileoff PAGE_SIZE + vaddr % PAGE_SIZE
  else fileoff

/-- The virtual address assigned to a chunk: `vaddr` after the optional
`starts_new_ptload` page rounding (line 573-574) and the `sh_addralign`
alignment (line 586). -/
def chunk_vaddr (st : OsecState) (c : OutputChunk) : Nat :=
  let v := if c.starts_new_ptload then align_to st.vaddr PAGE_SIZE else st.vaddr
  align_to v c.shdr.sh_addralign

/-- The file offset assigned to a chunk: `fileoff` after the congruence fix
(non-NOBITS only, lines 578-583) and the `sh_addralign` alignment (line 585). -/
def chunk_fileoff (st : OsecState) (c : OutputChunk) : Nat :=
  let v := if c.starts_new_ptload then align_to st.vaddr PAGE_SIZE else st.vaddr
  let f := if c.shdr.sh_type = SHT_NOBITS then st.fileoff else fix_fileoff st.fileoff v
  align_to f c.shdr.sh_addralign

/-- One iteration of the `set_osec_offsets` loop, state part: advance
`fileoff` by `sh_size` unless NOBITS (line 592-593), advance `vaddr` by
`sh_size` unless the chunk is a tbss (NOBITS + `SHF_TLS`) chunk
(lines 595-597). -/
def osec_advance (st : OsecState) (c : OutputChunk) : OsecState :=
  { fileoff := chunk_fileoff st c +
      (if c.shdr.sh_type = SHT_NOBITS then 0 else c.shdr.sh_size)
    vaddr := chunk_vaddr st c +
      (if c.shdr.sh_type = SHT_NOBITS ∧ c.shdr.sh_flags &&& SHF_TLS ≠ 0 then 0
       else c.shdr.sh_size) }

/-- One iteration of the `set_osec_offsets` loop, chunk part: record
`sh_offset` (line 588) and, for `SHF_ALLOC` chunks, `sh_addr` (lines 589-590). -/
def place_chunk (st : OsecState) (c : OutputChunk) : OutputChunk :=
  { c with shdr := { c.shdr with
      sh_offset := chunk_fileoff st c
      sh_addr := if c.shdr.sh_flags &&& SHF_ALLOC ≠ 0 then chunk_vaddr st c
                 else c.shdr.sh_addr } }

def osec_loop (st : OsecState) : List OutputChunk → List OutputChunk × OsecState
  | [] => ([], st)
  | c :: cs =>
    let r := osec_loop (osec_advance st c) cs
    (place_chunk st c :: r.1, r.2)

/-- Initial state of the loop: `fileoff = 0`, `vaddr = 0x200000` (lines 569-570). -/
def initial_osec_state : OsecState := ⟨0, 0x200000⟩

/-- `set_osec_offsets` (main.cc lines 566-600): assigns `sh_offset`/`sh_addr`
to every chunk and returns the final `fileoff` (the output file size). -/
def set_osec_offsets (chunks : List OutputChunk) : List OutputChunk × Nat :=
  ((osec_loop initial_osec_state chunks).1,
   (osec_loop initial_osec_state chunks).2.fileoff)

/-- The running `(fileoff, vaddr)` state after the first `i` chunks have
been processed. -/
def osec_state_at (chunks : List OutputChunk) (i : Nat) : OsecState :=
  (chunks.take i).foldl osec_advance initial_osec_state

/-- `n` is a power of two (the `align_to` helper asserts this of every
alignment it is given). -/
def IsPow2 (n : Nat) : Prop := ∃ k, n = 2 ^ k

/-- Claim C1, as a predicate on the chunk list: congruence modulo the page
size between `sh_offset` and `sh_addr` for allocatable non-NOBITS chunks;
the running file offset advances by `sh_size` past the assigned offset of
each non-NOBITS chunk; the running virtual address advances by `sh_size`
past the chunk's (aligned) address except for tbss chunks; the returned
file size is the running file offset after the last chunk. -/
def C1Prop (chunks : List OutputChunk) : Prop :=
  (∀ c ∈ (set_osec_offsets chunks).1,
      c.shdr.sh_type ≠ SHT_NOBITS → c.shdr.sh_flags &&& SHF_ALLOC ≠ 0 →
      c.shdr.sh_offset % PAGE_SIZE = c.shdr.sh_addr % PAGE_SIZE) ∧
  (∀ i, i < chunks.length →
      (chunks.getD i {}).shdr.sh_type ≠ SHT_NOBITS →
      (osec_state_at chunks (i + 1)).fileoff
        = ((set_osec_offsets chunks).1.getD i {}).shdr.sh_offset
            + (chunks.getD i {}).shdr.sh_size) ∧
  (∀ i, i < chunks.length →
      ((chunks.getD i {}).shdr.sh_flags &&& SHF_ALLOC ≠ 0 →
        ((set_osec_offsets chunks).1.getD i {}).shdr.sh_addr
          = chunk_vaddr (osec_state_at chunks i) (chunks.getD i {})) ∧
      (osec_state_at chunks (i + 1)).vaddr
        = chunk_vaddr (osec_state_at chunks i) (chunks.getD i {}) +
            (if (chunks.getD i {}).shdr.sh_type = SHT_NOBITS ∧
                (chunks.getD i {}).shdr.sh_flags &&& SHF_TLS ≠ 0 then 0
             else (chunks.getD i {}).shdr.sh_size)) ∧
  (set_osec_offsets chunks).2 = (osec_state_at chunks chunks.length).fileoff

/-- Claim C10, as a predicate on the chunk list: the running file offset is
monotone across iterations, and file ranges of non-NOBITS chunks are
pairwise disjoint in list order. -/
def C10Prop (chunks : List OutputChunk) : Prop :=
  (∀ i, i < chunks.length →
      (osec_state_at chunks i).fileoff ≤ (osec_state_at chunks (i + 1)).fileoff) ∧
  (∀ i j, i < j → j < chunks.length →
      ((set_osec_offsets chunks).1.getD i {}).shdr.sh_type ≠ SHT_NOBITS →
      ((set_osec_offsets chunks).1.getD j {}).shdr.sh_type ≠ SHT_NOBITS →
      ((set_osec_offsets chunks).1.getD i {}).shdr.sh_offset
          + ((set_osec_offsets chunks).1.getD i {}).shdr.sh_size
        ≤ ((set_osec_offsets chunks).1.getD j {}).shdr.sh_offset)

/-! ### Input sections, `bin_sections` (lines 252-289) and
`set_isec_offsets` (lines 291-331) -/

structure InputChunk where
  osec_idx : Nat := 0
  sh_addralign : Nat := 1
  sh_size : Nat := 0
  offset : Nat := 0
deriving Repr, DecidableEq

/-- The fields of an input section that `set_isec_offsets` does not modify. -/
def chunk_core (c : InputChunk) : Nat × Nat × Nat :=
  (c.osec_idx, c.sh_addralign, c.sh_size)

/-- `file->sections` with the null entries skipped (the `if (!isec) continue`
in `bin_sections`). -/
def file_isecs (f : List (Option InputChunk)) : List InputChunk :=
  f.filterMap id

/-- The contribution of one shard (slice of the file list) to output section
`j`: the shard's files in order, each file's non-null sections in order,
restricted to sections assigned to output section `j`
(`groups[i][osec->idx].push_back(isec)`). -/
def shard_members (shard : List (List (Option InputChunk))) (j : Nat) : List InputChunk :=
  shard.flatMap (fun f => (file_isecs f).filter (fun isec => isec.osec_idx == j))

/-- `bin_sections` (main.cc lines 252-289): the member list of output
section `j` is the concatenation of the per-shard contributions in shard
order, where the shards are `split(files, (files.size() + 127) / 128)`.
The hypothesis `h` reflects that `split` only terminates when the computed
unit is at least 1, i.e. when the file list is non-empty (see C8). -/
def bin_sections (files : List (List (Option InputChunk))) (h : files ≠ [])
    (j : Nat) : List InputChunk :=
  (split (bin_unit files.length)
      (by cases files with
          | nil => exact absurd rfl h
          | cons a l => simp only [bin_unit, List.length_cons]; omega)
      files).flatMap (fun shard => shard_members shard j)

/-- The per-slice pass of `set_isec_offsets` (lines 302-315): cumulative
offsets starting at `off = 0`, honoring each member's `sh_addralign`, while
accumulating the slice size and the running maximum alignment
(initially 1). -/
def layout_slice : List InputChunk → Nat → Nat → List InputChunk × Nat × Nat
  | [], off, al => ([], off, al)
  | c :: cs, off, al =>
    let off1 := align_to off c.sh_addralign
    let r := layout_slice cs (off1 + c.sh_size) (max al c.sh_addralign)
    ({ c with offset := off1 } :: r.1, r.2)

/-- The shift pass (lines 323-326): add the slice's start to every member
offset. -/
def shift_slice (d : Nat) (cs : List InputChunk) : List InputChunk :=
  cs.map (fun c => { c with offset := c.offset + d })

/-- The per-slice starts (lines 319-321): `start[0] = 0` and
`start[i] = align_to(start[i-1] + size[i-1], align)`. -/
def slice_starts_from (al : Nat) : Nat → List Nat → List Nat
  | _, [] => []
  | cur, sz :: szs => cur :: slice_starts_from al (align_to (cur + sz) al) szs

/-- The per-slice layout results (offset-assigned members, slice size,
slice max alignment) of lines 302-315, one entry per slice. -/
def slice_layouts (slices : List (List InputChunk)) :
    List (List InputChunk × Nat × Nat) :=
  slices.map (fun sl => layout_slice sl 0 1)

/-- The `size` vector of lines 299/313. -/
def slice_sizes (slices : List (List InputChunk)) : List Nat :=
  (slice_layouts slices).map (fun r => r.2.1)

/-- The `alignments` vector of lines 300/314. -/
def slice_aligns (slices : List (List InputChunk)) : List Nat :=
  (slice_layouts slices).map (fun r => r.2.2)

/-- `align = *std::max_element(alignments.begin(), alignments.end())`
(line 317); every entry is ≥ 1, so folding `max` from 0 computes the same
maximum. -/
def osec_align (slices : List (List InputChunk)) : Nat :=
  (slice_aligns slices).foldl Nat.max 0

/-- The shift pass (lines 323-326): slice `i`'s members are shifted by
`start[i]` (slice 0 by `start[0] = 0`, a no-op, as in the source where the
loop starts at 1). -/
def shifted_slices (al cur : Nat) (slices : List (List InputChunk)) :
    List (List InputChunk) :=
  ((slice_layouts slices).zip (slice_starts_from al cur (slice_sizes slices))).map
    (fun p => shift_slice p.2 p.1.1)

/-- `set_isec_offsets` for one output section (main.cc lines 294-329):
slices of up to 100000 members, per-slice layout, the max-reduced
alignment, per-slice starts, the shift pass, and finally
`sh_size = start.back() + size.back()` and `sh_addralign = align`.
Returns (members with offsets, `sh_size`, `sh_addralign`). -/
def set_isec_offsets_osec (members : List InputChunk) : List InputChunk × Nat × Nat :=
  let slices := split 100000 (by omega) members
  ((shifted_slices (osec_align slices) 0 slices).flatten,
   (slice_starts_from (osec_align slices) 0 (slice_sizes slices)).getLastD 0
     + (slice_sizes slices).getLastD 0,
   osec_align slices)

/-- Ordered disjointness of member byte ranges. -/
def chunk_end_le (a b : InputChunk) : Prop := a.offset + a.sh_size ≤ b.offset

/-- Claim C5, layout part, as a predicate on an output section's member
list: `set_isec_offsets` keeps the members (and their order) unchanged
apart from the offsets; every offset is a multiple of the member's
alignment; byte ranges are pairwise disjoint in list order; every byte
range fits below the computed `sh_size`; and `sh_addralign` is the maximum
member alignment. -/
def C5Prop (members : List InputChunk) : Prop :=
  (set_isec_offsets_osec members).1.map chunk_core = members.map chunk_core ∧
  (∀ c ∈ (set_isec_offsets_osec members).1, c.sh_addralign ∣ c.offset) ∧
  List.Pairwise chunk_end_le (set_isec_offsets_osec members).1 ∧
  (∀ c ∈ (set_isec_offsets_osec members).1,
      c.offset + c.sh_size ≤ (set_isec_offsets_osec members).2.1) ∧
  (set_isec_offsets_osec members).2.2
    = (members.map (fun c => c.sh_addralign)).foldl Nat.max 0

/-! ### Symbols and relocation scanning (main.cc lines 333-442) -/

structure Symbol where
  owned : Bool := true
  st_type : Nat := 0
  has_got_rel : Bool := false
  has_plt_rel : Bool := false
  has_gottp_rel : Bool := false
  has_tlsgd_rel : Bool := false
  has_tlsld_rel : Bool := false
  got_idx : Option Nat := none
  plt_idx : Option Nat := none
  gotplt_idx : Option Nat := none
  relplt_idx : Option Nat := none
  gottp_idx : Option Nat := none
  gotgd_idx : Option Nat := none
  gotld_idx : Option Nat := none
  dynsym_idx : Nat := 0
  addr : Nat := 0
  got_addr : Nat := 0
  gotplt_addr : Nat := 0
  plt_addr : Nat := 0
deriving Repr, DecidableEq

/-- A symbol before slot assignment: all slot indices are still `-1`
(the data model says "each −1 until assigned"). -/
abbrev fresh_sym (s : Symbol) : Prop :=
  s.got_idx = none ∧ s.plt_idx = none ∧ s.gotplt_idx = none ∧
  s.relplt_idx = none ∧ s.gottp_idx = none ∧ s.gotgd_idx = none ∧
  s.gotld_idx = none

/-- The per-file counters `num_got` etc. of an `ObjectFile`. -/
structure FileCounts where
  num_got : Nat := 0
  num_plt : Nat := 0
  num_gotplt : Nat := 0
  num_relplt : Nat := 0
  num_reldyn : Nat := 0
deriving Repr, DecidableEq

/-- One symbol of `scan_rels_static` (main.cc lines 333-358).  `sym->file !=
file` symbols are skipped (`owned = false`).  TLSGD/TLSLD needs hit
`error("not implemented")`, which is terminal. -/
def scan_sym_static (c : FileCounts) (s : Symbol) :
    Except String (FileCounts × Symbol) :=
  if s.owned = false then .ok (c, s) else
  let p1 := if s.has_got_rel then
      ({ c with num_got := c.num_got + 1 }, { s with got_idx := some c.num_got })
    else (c, s)
  let p2 := if s.has_plt_rel ∧ s.st_type = STT_GNU_IFUNC then
      ({ p1.1 with num_plt := p1.1.num_plt + 1, num_gotplt := p1.1.num_gotplt + 1,
                   num_relplt := p1.1.num_relplt + 1 },
       { p1.2 with plt_idx := some p1.1.num_plt, gotplt_idx := some p1.1.num_gotplt,
                   relplt_idx := some p1.1.num_relplt })
    else p1
  if s.has_tlsgd_rel then .error "not implemented"
  else if s.has_tlsld_rel then .error "not implemented"
  else .ok (if s.has_gottp_rel then
      ({ p2.1 with num_got := p2.1.num_got + 1 },
       { p2.2 with gottp_idx := some p2.1.num_got })
    else p2)

def scan_static_go (c : FileCounts) :
    List Symbol → Except String (List Symbol × FileCounts)
  | [] => .ok ([], c)
  | s :: ss =>
    match scan_sym_static c s with
    | .error e => .error e
    | .ok (c1, s1) =>
      match scan_static_go c1 ss with
      | .error e => .error e
      | .ok (ss1, cf) => .ok (s1 :: ss1, cf)

/-- `scan_rels_static(file)`: fold over the file's symbol list starting from
zeroed counters. -/
def scan_rels_static (syms : List Symbol) :
    Except String (List Symbol × FileCounts) :=
  scan_static_go {} syms

/-- One symbol of `scan_rels_dynamic` (main.cc lines 360-403).  Returns the
updated counters, the updated symbol, and the `needs_dynsym` flag.  Note the
GOTPLT/RELPLT slots are assigned only when `sym->got_idx == -1` *after* the
HAS_GOT_REL branch just above, and that both the TLSGD and the TLSLD branch
write `gotgd_idx`. -/
def scan_sym_dynamic (c : FileCounts) (s : Symbol) : FileCounts × Symbol × Bool :=
  if s.owned = false then (c, s, false) else
  let t1 := if s.has_got_rel then
      ({ c with num_got := c.num_got + 1, num_reldyn := c.num_reldyn + 1 },
       { s with got_idx := some c.num_got }, true)
    else (c, s, false)
  let t2 := if s.has_plt_rel then
      (let c2 : FileCounts := { t1.1 with num_plt := t1.1.num_plt + 1 }
       let s2 : Symbol := { t1.2.1 with plt_idx := some t1.1.num_plt }
       if s2.got_idx = none then
         ({ c2 with num_gotplt := c2.num_gotplt + 1, num_relplt := c2.num_relplt + 1 },
          { s2 with gotplt_idx := some c2.num_gotplt,
                    relplt_idx := some c2.num_relplt }, true)
       else (c2, s2, true))
    else t1
  let t3 := if s.has_tlsgd_rel then
      ({ t2.1 with num_got := t2.1.num_got + 2, num_reldyn := t2.1.num_reldyn + 2 },
       { t2.2.1 with gotgd_idx := some t2.1.num_got }, true)
    else t2
  let t4 := if s.has_tlsld_rel then
      ({ t3.1 with num_got := t3.1.num_got + 1, num_reldyn := t3.1.num_reldyn + 1 },
       { t3.2.1 with gotgd_idx := some t3.1.num_got }, true)
    else t3
  if s.has_gottp_rel then
    ({ t4.1 with num_got := t4.1.num_got + 1 },
     { t4.2.1 with gottp_idx := some t4.1.num_got }, t4.2.2)
  else t4

def scan_dyn_go (c : FileCounts) :
    List Symbol → List Symbol × FileCounts × List Symbol
  | [] => ([], c, [])
  | s :: ss =>
    let r := scan_sym_dynamic c s
    let rest := scan_dyn_go r.1 ss
    (r.2.1 :: rest.1, rest.2.1,
     (if r.2.2 then [r.2.1] else []) ++ rest.2.2)

/-- `scan_rels_dynamic(file)`: fold over the file's symbol list starting
from zeroed counters; also collects the file's `dynsyms` list in order. -/
def scan_rels_dynamic (syms : List Symbol) :
    List Symbol × FileCounts × List Symbol :=
  scan_dyn_go {} syms

/-- The counters a file ends up with under dynamic-mode slot assignment. -/
def file_counts_dyn (syms : List Symbol) : FileCounts :=
  (scan_rels_dynamic syms).2.1

/-- The slot indices a symbol holds in the `.got` table (`got_idx`,
`gottp_idx`, `gotgd_idx` and `gotld_idx` all index `.got` slots). -/
def got_slot_list (s : Symbol) : List Nat :=
  s.got_idx.toList ++ s.gottp_idx.toList ++ s.gotgd_idx.toList ++ s.gotld_idx.toList

def plt_slot_list (s : Symbol) : List Nat := s.plt_idx.toList

def gotplt_slot_list (s : Symbol) : List Nat := s.gotplt_idx.toList

def relplt_slot_list (s : Symbol) : List Nat := s.relplt_idx.toList

/-- Per-file base offsets into the synthetic tables, as assigned by the
sequential prefix-sum loop of `scan_rels` (main.cc lines 421-438). -/
structure FileOffsets where
  num : FileCounts := {}
  got_offset : Nat := 0
  gotplt_offset : Nat := 0
  plt_offset : Nat := 0
  relplt_offset : Nat := 0
  reldyn_offset : Nat := 0
deriving Repr, DecidableEq

/-- The running `shdr.sh_size` of the synthetic sections. -/
structure TableSizes where
  got : Nat := 0
  gotplt : Nat := 0
  plt : Nat := 0
  relplt : Nat := 0
  reldyn : Nat := 0
deriving Repr, DecidableEq

/-- The sequential prefix-sum loop of `scan_rels` (lines 421-438): for each
file in order, record the current table size as the file's offset, then bump
the table by the file's count times the entry size.  `has_reldyn` models the
`if (out::reldyn)` guard (reldyn exists only for dynamic links). -/
def assign_file_offsets (has_reldyn : Bool) :
    TableSizes → List FileCounts → List FileOffsets × TableSizes
  | t, [] => ([], t)
  | t, c :: cs =>
    let fo : FileOffsets :=
      { num := c, got_offset := t.got, gotplt_offset := t.gotplt,
        plt_offset := t.plt, relplt_offset := t.relplt,
        reldyn_offset := if has_reldyn then t.reldyn else 0 }
    let t1 : TableSizes :=
      { got := t.got + c.num_got * GOT_SIZE,
        gotplt := t.gotplt + c.num_gotplt * GOT_SIZE,
        plt := t.plt + c.num_plt * PLT_SIZE,
        relplt := t.relplt + c.num_relplt * RELA_SIZE,
        reldyn := if has_reldyn then t.reldyn + c.num_reldyn * RELA_SIZE else t.reldyn }
    let rest := assign_file_offsets has_reldyn t1 cs
    (fo :: rest.1, rest.2)

def scan_rels_offsets (has_reldyn : Bool) (files : List FileCounts) :
    List FileOffsets × TableSizes :=
  assign_file_offsets has_reldyn {} files

/-- Sum of `f` over a list of file counters. -/
def sumBy (f : FileCounts → Nat) (l : List FileCounts) : Nat := (l.map f).sum

/-- Claim C4, prefix-sum part, as a predicate over the per-file counters in
stable file order: each file's offset in each synthetic table is the sum of
the preceding files' contributions, consecutive file ranges are contiguous,
ranges of distinct files are disjoint in order, and the final table size is
the total. -/
def C4SumProp (hr : Bool) (counts : List FileCounts) : Prop :=
  (∀ i, i < counts.length →
      ((scan_rels_offsets hr counts).1.getD i {}).got_offset
          = sumBy (fun c => c.num_got * GOT_SIZE) (counts.take i) ∧
      ((scan_rels_offsets hr counts).1.getD i {}).gotplt_offset
          = sumBy (fun c => c.num_gotplt * GOT_SIZE) (counts.take i) ∧
      ((scan_rels_offsets hr counts).1.getD i {}).plt_offset
          = sumBy (fun c => c.num_plt * PLT_SIZE) (counts.take i) ∧
      ((scan_rels_offsets hr counts).1.getD i {}).relplt_offset
          = sumBy (fun c => c.num_relplt * RELA_SIZE) (counts.take i) ∧
      ((scan_rels_offsets hr counts).1.getD i {}).reldyn_offset
          = (if hr then sumBy (fun c => c.num_reldyn * RELA_SIZE) (counts.take i)
             else 0) ∧
      ((scan_rels_offsets hr counts).1.getD i {}).num = counts.getD i {}) ∧
  (∀ i, i + 1 < counts.length →
      ((scan_rels_offsets hr counts).1.getD (i + 1) {}).got_offset
        = ((scan_rels_offsets hr counts).1.getD i {}).got_offset
            + (counts.getD i {}).num_got * GOT_SIZE) ∧
  (∀ i j, i < j → j < counts.length →
      ((scan_rels_offsets hr counts).1.getD i {}).got_offset
          + (counts.getD i {}).num_got * GOT_SIZE
        ≤ ((scan_rels_offsets hr counts).1.getD j {}).got_offset ∧
      ((scan_rels_offsets hr counts).1.getD i {}).gotplt_offset
          + (counts.getD i {}).num_gotplt * GOT_SIZE
        ≤ ((scan_rels_offsets hr counts).1.getD j {}).gotplt_offset ∧
      ((scan_rels_offsets hr counts).1.getD i {}).plt_offset
          + (counts.getD i {}).num_plt * PLT_SIZE
        ≤ ((scan_rels_offsets hr counts).1.getD j {}).plt_offset ∧
      ((scan_rels_offsets hr counts).1.getD i {}).relplt_offset
          + (counts.getD i {}).num_relplt * RELA_SIZE
        ≤ ((scan_rels_offsets hr counts).1.getD j {}).relplt_offset) ∧
  ((scan_rels_offsets hr counts).2.got
      = sumBy (fun c => c.num_got * GOT_SIZE) counts ∧
   (scan_rels_offsets hr counts).2.gotplt
      = sumBy (fun c => c.num_gotplt * GOT_SIZE) counts ∧
   (scan_rels_offsets hr counts).2.plt
      = sumBy (fun c => c.num_plt * PLT_SIZE) counts ∧
   (scan_rels_offsets hr counts).2.relplt
      = sumBy (fun c => c.num_relplt * RELA_SIZE) counts ∧
   (scan_rels_offsets hr counts).2.reldyn
      = (if hr then sumBy (fun c => c.num_reldyn * RELA_SIZE) counts else 0))

/-- Claim C4, slot-uniqueness part, for one file under dynamic-mode
assignment: within each synthetic table, the slot indices recorded across
the file's symbols are pairwise distinct and lie below the file's final
count (hence inside the file's reserved byte range). -/
def C4SlotProp (syms : List Symbol) : Prop :=
  ((((scan_rels_dynamic syms).1.map got_slot_list).flatten).Nodup ∧
   ∀ x ∈ ((scan_rels_dynamic syms).1.map got_slot_list).flatten,
     x < (file_counts_dyn syms).num_got) ∧
  ((((scan_rels_dynamic syms).1.map plt_slot_list).flatten).Nodup ∧
   ∀ x ∈ ((scan_rels_dynamic syms).1.map plt_slot_list).flatten,
     x < (file_counts_dyn syms).num_plt) ∧
  ((((scan_rels_dynamic syms).1.map gotplt_slot_list).flatten).Nodup ∧
   ∀ x ∈ ((scan_rels_dynamic syms).1.map gotplt_slot_list).flatten,
     x < (file_counts_dyn syms).num_gotplt) ∧
  ((((scan_rels_dynamic syms).1.map relplt_slot_list).flatten).Nodup ∧
   ∀ x ∈ ((scan_rels_dynamic syms).1.map relplt_slot_list).flatten,
     x < (file_counts_dyn syms).num_relplt)

/-- Same, for static-mode assignment when it succeeds. -/
def C4SlotPropStatic (syms : List Symbol) : Prop :=
  ∀ res, scan_rels_static syms = .ok res →
    (((res.1.map got_slot_list).flatten).Nodup ∧
     ∀ x ∈ (res.1.map got_slot_list).flatten, x < res.2.num_got) ∧
    (((res.1.map plt_slot_list).flatten).Nodup ∧
     ∀ x ∈ (res.1.map plt_slot_list).flatten, x < res.2.num_plt) ∧
    (((res.1.map gotplt_slot_list).flatten).Nodup ∧
     ∀ x ∈ (res.1.map gotplt_slot_list).flatten, x < res.2.num_gotplt) ∧
    (((res.1.map relplt_slot_list).flatten).Nodup ∧
     ∀ x ∈ (res.1.map relplt_slot_list).flatten, x < res.2.num_relplt)

/-! ### The writer `write_got_plt` (main.cc lines 444-505) -/

/-- An `ELF64LE::Rela` record as filled in by `write_dynamic_rel`
(lines 444-450). -/
structure Rela where
  r_offset : Nat := 0
  r_type : Nat := 0
  r_sym : Nat := 0
  r_addend : Int := 0
deriving Repr, DecidableEq

def write_dynamic_rel (ty : Nat) (addr : Nat) (dynsym_idx : Nat) (addend : Int) :
    Rela :=
  { r_offset := addr, r_type := ty, r_sym := dynsym_idx, r_addend := addend }

/-- One store performed by `write_got_plt`, with the byte offset taken
relative to the owning file's reserved range in the respective section
(the code writes through `got_buf` / `gotplt_buf` / `relplt_buf` /
`reldyn_buf`, which are the section base plus the file's offset). -/
inductive WriteEvent where
  | got_store (off : Nat) (val : Int)
  | reldyn_write (off : Nat) (rel : Rela)
  | plt_entry (idx : Nat)
  | relplt_write (off : Nat) (rel : Rela)
  | gotplt_store (off : Nat) (val : Nat)
deriving Repr, DecidableEq

/-- The stores `write_got_plt` performs for one symbol (main.cc lines
463-503), in program order, together with the updated file-local
`reldyn_idx`.  Faithful details: the GOT slot of a `HAS_GOT_REL` symbol is
written directly in static mode and via a GLOB_DAT reldyn entry in dynamic
mode; the GOTTP slot holds `sym->get_addr() - out::tls_end`; TLSGD/TLSLD
slots abort with `error("unimplemented")`; the RELPLT entry is IRELATIVE
with the resolver address as addend for IFUNC symbols and JUMP_SLOT
otherwise; and — exactly as in the source — the non-IFUNC GOTPLT seed
`plt_addr + 6` is stored at byte offset `gotplt_idx * sizeof(ELF64LE::Sym)`,
not `gotplt_idx * GOT_SIZE`.  (`gotplt_idx` is always assigned when
`relplt_idx` is, so the `.getD 0` default is unreachable.) -/
def write_sym_events (is_static : Bool) (tls_end : Nat) (reldyn_idx : Nat)
    (s : Symbol) : Except String (List WriteEvent × Nat) :=
  if s.owned = false then .ok ([], reldyn_idx) else
  let e1 : List WriteEvent × Nat :=
    match s.got_idx with
    | some g =>
      if is_static then ([.got_store (g * GOT_SIZE) (s.addr : Int)], reldyn_idx)
      else ([.reldyn_write (reldyn_idx * RELA_SIZE)
              (write_dynamic_rel R_X86_64_GLOB_DAT s.got_addr s.dynsym_idx 0)],
            reldyn_idx + 1)
    | none => ([], reldyn_idx)
  let e2 : List WriteEvent :=
    match s.gottp_idx with
    | some g => [.got_store (g * GOT_SIZE) ((s.addr : Int) - (tls_end : Int))]
    | none => []
  if s.gotgd_idx ≠ none then .error "unimplemented"
  else if s.gotld_idx ≠ none then .error "unimplemented"
  else
    let e3 : List WriteEvent :=
      match s.plt_idx with
      | some p => [.plt_entry p]
      | none => []
    let e4 : List WriteEvent :=
      match s.relplt_idx with
      | some r =>
        if s.st_type = STT_GNU_IFUNC then
          [.relplt_write (r * RELA_SIZE)
            (write_dynamic_rel R_X86_64_IRELATIVE s.gotplt_addr s.dynsym_idx
              (s.addr : Int))]
        else
          [.relplt_write (r * RELA_SIZE)
              (write_dynamic_rel R_X86_64_JUMP_SLOT s.gotplt_addr s.dynsym_idx 0),
           .gotplt_store (s.gotplt_idx.getD 0 * SYM_SIZE) (s.plt_addr + 6)]
      | none => []
    .ok (e1.1 ++ e2 ++ e3 ++ e4, e1.2)

def write_file_events_go (is_static : Bool) (tls_end : Nat) (ridx : Nat) :
    List Symbol → Except String (List WriteEvent)
  | [] => .ok []
  | s :: ss =>
    match write_sym_events is_static tls_end ridx s with
    | .error e => .error e
    | .ok (evs, ridx1) =>
      match write_file_events_go is_static tls_end ridx1 ss with
      | .error e => .error e
      | .ok rest => .ok (evs ++ rest)

/-- All stores `write_got_plt` performs for one file, in program order. -/
def write_got_plt_file (is_static : Bool) (tls_end : Nat) (syms : List Symbol) :
    Except String (List WriteEvent) :=
  write_file_events_go is_static tls_end 0 syms

/-! ### `parse_filler` (main.cc lines 747-759) -/

def hexDigit (ch : Char) : Option Nat :=
  if '0' ≤ ch ∧ ch ≤ '9' then some (ch.toNat - '0'.toNat)
  else if 'a' ≤ ch ∧ ch ≤ 'f' then some (ch.toNat - 'a'.toNat + 10)
  else if 'A' ≤ ch ∧ ch ≤ 'F' then some (ch.toNat - 'A'.toNat + 10)
  else none

def hexNat : List Char → Nat → Option Nat
  | [], acc => some acc
  | ch :: cs, acc =>
    match hexDigit ch with
    | some d => hexNat cs (acc * 16 + d)
    | none => none

/-- Modelled from the spec: `llvm::to_integer(str, ret, 16)` with `ret` a C
`int` (this helper lives in LLVM's StringRef support, outside the provided
sources).  It accepts an optional leading minus sign followed by a non-empty
run of hexadecimal digits, and fails when the value does not fit the target
`int` type. -/
def to_integer_hex (s : List Char) : Option Int :=
  match s with
  | '-' :: rest =>
    match rest, hexNat rest 0 with
    | _ :: _, some v => if v ≤ 2 ^ 31 then some (-(v : Int)) else none
    | _, _ => none
  | _ =>
    match s, hexNat s 0 with
    | _ :: _, some v => if v ≤ 2 ^ 31 - 1 then some (v : Int) else none
    | _, _ => none

/-- `parse_filler` (main.cc lines 747-759): `none` (no `-filler` argument)
yields `-1`; an argument not starting with `0x` or whose remainder is not a
valid hexadecimal integer is a terminal error; otherwise the parsed value is
truncated by the `(u8)` cast, i.e. reduced modulo 256. -/
def parse_filler (arg : Option String) : Except String Int :=
  match arg with
  | none => .ok (-1)
  | some v =>
    if v.startsWith "0x" = false then .error "invalid argument"
    else
      match to_integer_hex (v.toList.drop 2) with
      | none => .error "invalid argument"
      | some n => .ok (n % 256)

/-! ## Theorems -/

/-! ### Arithmetic facts about `align_to` -/

theorem align_to_ge (x a : Nat) : x ≤ align_to x a := by
  unfold align_to
  split
  · exact Nat.le_refl x
  · exact Nat.le_add_right _ _

theorem align_to_mod_self (x a : Nat) (ha : 0 < a) : align_to x a % a = 0 := by
  unfold align_to
  rw [if_neg (Nat.pos_iff_ne_zero.mp ha)]
  rcases Nat.eq_zero_or_pos (x % a) with h | h
  · rw [h, Nat.sub_zero, Nat.mod_self, Nat.add_zero]
    exact h
  · have hlt : x % a < a := Nat.mod_lt _ ha
    have h2 : (a - x % a) % a = a - x % a := Nat.mod_eq_of_lt (by omega)
    have h3 : x % a ≤ x := Nat.mod_le _ _
    have h4 : x + (a - x % a) = x - x % a + a := by omega
    have h5 : a ∣ x - x % a := Nat.dvd_sub_mod x
    have h6 : a ∣ x - x % a + a := Dvd.dvd.add h5 (Nat.dvd_refl a)
    rw [h2, h4]
    exact Nat.mod_eq_zero_of_dvd h6

theorem align_to_dvd (x a : Nat) (ha : 0 < a) : a ∣ align_to x a :=
  Nat.dvd_of_mod_eq_zero (align_to_mod_self x a ha)

theorem align_to_of_dvd (x a : Nat) (h : a ∣ x) : align_to x a = x := by
  unfold align_to
  split
  · rfl
  · rw [Nat.mod_eq_zero_of_dvd h, Nat.sub_zero, Nat.mod_self, Nat.add_zero]

theorem isPow2_pos {a : Nat} (h : IsPow2 a) : 0 < a := by
  obtain ⟨k, rfl⟩ := h
  exact Nat.pos_pow_of_pos k (by omega)

theorem isPow2_max {a b : Nat} (ha : IsPow2 a) (hb : IsPow2 b) : IsPow2 (max a b) := by
  obtain ⟨i, rfl⟩ := ha
  obtain ⟨j, rfl⟩ := hb
  rcases Nat.le_total i j with h | h
  · rw [Nat.max_eq_right (Nat.pow_le_pow_right (by omega) h)]
    exact ⟨j, rfl⟩
  · rw [Nat.max_eq_left (Nat.pow_le_pow_right (by omega) h)]
    exact ⟨i, rfl⟩

theorem pow2_dvd_of_le {a b : Nat} (ha : IsPow2 a) (hb : IsPow2 b) (h : a ≤ b) :
    a ∣ b := by
  obtain ⟨i, rfl⟩ := ha
  obtain ⟨j, rfl⟩ := hb
  exact pow_dvd_pow 2 ((Nat.pow_le_pow_iff_right (by omega)).mp h)

theorem align_to_pow2_mod (x y k : Nat) (h : x % PAGE_SIZE = y % PAGE_SIZE) :
    align_to x (2 ^ k) % PAGE_SIZE = align_to y (2 ^ k) % PAGE_SIZE := by
  have hP : PAGE_SIZE = 2 ^ 12 := by norm_num [PAGE_SIZE]
  have hk0 : (2 : Nat) ^ k ≠ 0 := Nat.pos_iff_ne_zero.mp (Nat.pos_pow_of_pos k (by omega))
  rcases Nat.le_total k 12 with hk | hk
  · have hdvd : (2 : Nat) ^ k ∣ PAGE_SIZE := by
      rw [hP]; exact pow_dvd_pow 2 hk
    have hxy : x % 2 ^ k = y % 2 ^ k := by
      have hx := Nat.mod_mod_of_dvd x hdvd
      have hy := Nat.mod_mod_of_dvd y hdvd
      rw [← hx, ← hy, h]
    unfold align_to
    rw [if_neg hk0, if_neg hk0, hxy, Nat.add_mod, Nat.add_mod y, h]
  · have hdvd : PAGE_SIZE ∣ (2 : Nat) ^ k := by
      rw [hP]; exact pow_dvd_pow 2 hk
    have hPpos : 0 < PAGE_SIZE := by norm_num [PAGE_SIZE]
    have h2pos : 0 < (2 : Nat) ^ k := Nat.pos_pow_of_pos k (by omega)
    have hx : PAGE_SIZE ∣ align_to x (2 ^ k) :=
      dvd_trans hdvd (align_to_dvd x _ h2pos)
    have hy : PAGE_SIZE ∣ align_to y (2 ^ k) :=
      dvd_trans hdvd (align_to_dvd y _ h2pos)
    rw [Nat.mod_eq_zero_of_dvd hx, Nat.mod_eq_zero_of_dvd hy]

theorem fix_fileoff_mod (f v : Nat) :
    fix_fileoff f v % PAGE_SIZE = v % PAGE_SIZE := by
  have h3 := align_to_mod_self f PAGE_SIZE (by norm_num [PAGE_SIZE])
  unfold fix_fileoff
  set A := align_to f PAGE_SIZE with hA
  simp only [PAGE_SIZE] at h3 ⊢
  split
  · omega
  · split
    · omega
    · omega

theorem fix_fileoff_ge (f v : Nat) : f ≤ fix_fileoff f v := by
  unfold fix_fileoff
  split
  · exact Nat.le_add_right _ _
  · split
    · exact Nat.le_trans (align_to_ge f PAGE_SIZE) (Nat.le_add_right _ _)
    · exact Nat.le_refl f

/-! ### The `set_osec_offsets` loop -/

theorem chunk_congr (st : OsecState) (c : OutputChunk)
    (hp : IsPow2 c.shdr.sh_addralign) (hb : c.shdr.sh_type ≠ SHT_NOBITS) :
    chunk_fileoff st c % PAGE_SIZE = chunk_vaddr st c % PAGE_SIZE := by
  obtain ⟨k, hk⟩ := hp
  simp only [chunk_fileoff, chunk_vaddr, if_neg hb, hk]
  exact align_to_pow2_mod _ _ k (fix_fileoff_mod st.fileoff _)

theorem chunk_fileoff_ge (st : OsecState) (c : OutputChunk) :
    st.fileoff ≤ chunk_fileoff st c := by
  simp only [chunk_fileoff]
  refine Nat.le_trans ?_ (align_to_ge _ _)
  split
  · exact Nat.le_refl _
  · exact fix_fileoff_ge _ _

theorem osec_advance_fileoff_ge (st : OsecState) (c : OutputChunk) :
    st.fileoff ≤ (osec_advance st c).fileoff :=
  Nat.le_trans (chunk_fileoff_ge st c) (Nat.le_add_right _ _)

theorem osec_loop_length (st : OsecState) (cs : List OutputChunk) :
    (osec_loop st cs).1.length = cs.length := by
  induction cs generalizing st with
  | nil => rfl
  | cons c cs ih => simp [osec_loop, ih]

theorem osec_loop_snd (st : OsecState) (cs : List OutputChunk) :
    (osec_loop st cs).2 = cs.foldl osec_advance st := by
  induction cs generalizing st with
  | nil => rfl
  | cons c cs ih => simp [osec_loop, ih]

theorem osec_loop_mem (st : OsecState) (cs : List OutputChunk) :
    ∀ c' ∈ (osec_loop st cs).1, ∃ st1 c, c ∈ cs ∧ c' = place_chunk st1 c := by
  induction cs generalizing st with
  | nil => intro c' h; simp [osec_loop] at h
  | cons c cs ih =>
    intro c' h
    simp only [osec_loop, List.mem_cons] at h
    rcases h with h | h
    · exact ⟨st, c, List.mem_cons_self c cs, h⟩
    · obtain ⟨st1, c0, hc0, he⟩ := ih (osec_advance st c) c' h
      exact ⟨st1, c0, List.mem_cons_of_mem _ hc0, he⟩

theorem osec_loop_getD (st : OsecState) (cs : List OutputChunk) (i : Nat)
    (h : i < cs.length) :
    (osec_loop st cs).1.getD i {} =
      place_chunk ((cs.take i).foldl osec_advance st) (cs.getD i {}) := by
  induction cs generalizing st i with
  | nil => simp at h
  | cons c cs ih =>
    cases i with
    | zero => simp [osec_loop]
    | succ i =>
      simp only [osec_loop, List.getD_cons_succ, List.take_succ_cons, List.foldl_cons]
      exact ih (osec_advance st c) i (by simpa using h)

theorem foldl_take_succ {α β : Type} (f : β → α → β) (b : β) (l : List α)
    (d : α) (i : Nat) (h : i < l.length) :
    (l.take (i + 1)).foldl f b = f ((l.take i).foldl f b) (l.getD i d) := by
  induction l generalizing b i with
  | nil => simp at h
  | cons x xs ih =>
    cases i with
    | zero => simp
    | succ i =>
      simp only [List.take_succ_cons, List.foldl_cons, List.getD_cons_succ]
      exact ih (f b x) i (by simpa using h)

theorem osec_loop_getD_init (chunks : List OutputChunk) (i : Nat)
    (h : i < chunks.length) :
    (osec_loop initial_osec_state chunks).1.getD i {} =
      place_chunk (osec_state_at chunks i) (chunks.getD i {}) :=
  osec_loop_getD initial_osec_state chunks i h

theorem osec_state_at_succ (chunks : List OutputChunk) (i : Nat)
    (h : i < chunks.length) :
    osec_state_at chunks (i + 1)
      = osec_advance (osec_state_at chunks i) (chunks.getD i {}) := by
  unfold osec_state_at
  exact foldl_take_succ osec_advance initial_osec_state chunks {} i h

theorem osec_state_at_step (chunks : List OutputChunk) (j : Nat) :
    (osec_state_at chunks j).fileoff ≤ (osec_state_at chunks (j + 1)).fileoff := by
  rcases Nat.lt_or_ge j chunks.length with h | h
  · rw [osec_state_at_succ chunks j h]
    exact osec_advance_fileoff_ge _ _
  · unfold osec_state_at
    rw [List.take_of_length_le h, List.take_of_length_le (by omega)]

theorem osec_state_at_fileoff_mono (chunks : List OutputChunk) (i j : Nat)
    (hij : i ≤ j) :
    (osec_state_at chunks i).fileoff ≤ (osec_state_at chunks j).fileoff := by
  induction j with
  | zero =>
    have : i = 0 := by omega
    exact this ▸ Nat.le_refl _
  | succ j ih =>
    rcases Nat.lt_or_ge i (j + 1) with h | h
    · exact Nat.le_trans (ih (by omega)) (osec_state_at_step chunks j)
    · have : i = j + 1 := by omega
      exact this ▸ Nat.le_refl _

/-- C1: in `set_osec_offsets`, every non-NOBITS allocatable chunk gets
`sh_offset ≡ sh_addr (mod 4096)`; after a non-NOBITS chunk the running file
offset is the chunk's `sh_offset` plus its `sh_size`; the running virtual
address advances by `sh_size` past the chunk's aligned address except for
tbss (`SHF_TLS` NOBITS) chunks; and the returned file size is the running
file offset after the last chunk. -/
theorem set_osec_offsets_layout (chunks : List OutputChunk)
    (hpow : ∀ c ∈ chunks, IsPow2 c.shdr.sh_addralign) : C1Prop chunks := by
  unfold C1Prop
  simp only [set_osec_offsets]
  refine ⟨?_, ?_, ?_, ?_⟩
  · intro c' hc' hb ha
    obtain ⟨st1, c, hc, he⟩ := osec_loop_mem initial_osec_state chunks c' hc'
    subst he
    have hbc : c.shdr.sh_type ≠ SHT_NOBITS := by
      simpa [place_chunk] using hb
    have hac : c.shdr.sh_flags &&& SHF_ALLOC ≠ 0 := by
      simpa [place_chunk] using ha
    simp only [place_chunk, if_pos hac]
    exact chunk_congr st1 c (hpow c hc) hbc
  · intro i hi hb
    rw [osec_state_at_succ chunks i hi, osec_loop_getD_init chunks i hi]
    rw [List.getD_eq_getElem chunks _ hi] at hb ⊢
    simp [osec_advance, place_chunk, hb]
  · intro i hi
    refine ⟨?_, ?_⟩
    · intro ha
      rw [osec_loop_getD_init chunks i hi]
      simp only [place_chunk, if_pos ha]
    · rw [osec_state_at_succ chunks i hi]
      rfl
  · rw [osec_loop_snd]
    unfold osec_state_at
    rw [List.take_length]

theorem set_osec_offsets_layout_witness :
    C1Prop
      [{ starts_new_ptload := false,
         shdr := { sh_type := 1, sh_flags := 2, sh_addralign := 8, sh_size := 100 } },
       { starts_new_ptload := false,
         shdr := { sh_type := 8, sh_flags := 1027, sh_addralign := 4, sh_size := 16 } }] :=
  set_osec_offsets_layout _ (by
    intro c hc
    simp only [List.mem_cons, List.not_mem_nil, or_false] at hc
    rcases hc with rfl | rfl
    · exact ⟨3, rfl⟩
    · exact ⟨2, rfl⟩)

/-- C10: in `set_osec_offsets` the running file offset never decreases, so
file ranges of non-NOBITS chunks are pairwise disjoint and in list order. -/
theorem set_osec_offsets_monotone (chunks : List OutputChunk) : C10Prop chunks := by
  unfold C10Prop
  constructor
  · intro i _
    exact osec_state_at_step chunks i
  · intro i j hij hj hbi hbj
    have hi : i < chunks.length := by omega
    simp only [set_osec_offsets] at hbi hbj ⊢
    rw [osec_loop_getD_init chunks i hi] at hbi ⊢
    rw [osec_loop_getD_init chunks j hj] at hbj ⊢
    simp only [List.getD_eq_getElem chunks _ hi, List.getD_eq_getElem chunks _ hj]
      at hbi hbj ⊢
    have hbi1 : chunks[i].shdr.sh_type ≠ SHT_NOBITS := by
      simpa [place_chunk] using hbi
    have h1 : (place_chunk (osec_state_at chunks i) chunks[i]).shdr.sh_offset
        + (place_chunk (osec_state_at chunks i) chunks[i]).shdr.sh_size
        = (osec_state_at chunks (i + 1)).fileoff := by
      rw [osec_state_at_succ chunks i hi]
      rw [List.getD_eq_getElem chunks _ hi]
      simp [place_chunk, osec_advance, hbi1]
    have h2 : (osec_state_at chunks (i + 1)).fileoff
        ≤ (osec_state_at chunks j).fileoff :=
      osec_state_at_fileoff_mono chunks (i + 1) j (by omega)
    have h3 : (osec_state_at chunks j).fileoff
        ≤ chunk_fileoff (osec_state_at chunks j) chunks[j] :=
      chunk_fileoff_ge _ _
    have h4 : (place_chunk (osec_state_at chunks j) chunks[j]).shdr.sh_offset
        = chunk_fileoff (osec_state_at chunks j) chunks[j] := by
      simp [place_chunk]
    omega

theorem set_osec_offsets_monotone_witness :
    C10Prop
      [{ starts_new_ptload := false,
         shdr := { sh_type := 1, sh_flags := 6, sh_addralign := 16, sh_size := 10 } },
       { starts_new_ptload := true,
         shdr := { sh_type := 1, sh_flags := 3, sh_addralign := 8, sh_size := 20 } },
       { starts_new_ptload := false,
         shdr := { sh_type := 8, sh_flags := 3, sh_addralign := 1, sh_size := 50 } }] :=
  set_osec_offsets_monotone _

/-! ### `split`: termination behaviour (C8) -/

theorem split_fuel_zero_unit {α : Type} :
    ∀ (fuel : Nat) (arr : List α) (acc : List (List α)),
      split_fuel 0 fuel arr acc = none := by
  intro fuel
  induction fuel with
  | zero => intro arr acc; rfl
  | succ fuel ih =>
    intro arr acc
    simp only [split_fuel, Nat.zero_le, if_pos]
    exact ih _ _

theorem split_eq_cons {α : Type} (unit : Nat) (hu : 0 < unit) (arr : List α)
    (hc : unit ≤ arr.length) :
    split unit hu arr = arr.take unit :: split unit hu (arr.drop unit) := by
  conv_lhs => unfold split
  rw [dif_pos hc]

theorem split_eq_last {α : Type} (unit : Nat) (hu : 0 < unit) (arr : List α)
    (hc : ¬ unit ≤ arr.length) :
    split unit hu arr = if arr.isEmpty then [] else [arr] := by
  conv_lhs => unfold split
  rw [dif_neg hc]

theorem split_join_aux {α : Type} (unit : Nat) (hu : 0 < unit) :
    ∀ (n : Nat) (arr : List α), arr.length ≤ n →
      (split unit hu arr).flatten = arr := by
  intro n
  induction n with
  | zero =>
    intro arr h
    have he : arr = [] := List.eq_nil_of_length_eq_zero (by omega)
    subst he
    rw [split_eq_last unit hu [] (by simp; omega)]
    rfl
  | succ n ih =>
    intro arr h
    by_cases hc : unit ≤ arr.length
    · rw [split_eq_cons unit hu arr hc]
      simp only [List.flatten_cons]
      rw [ih (arr.drop unit) (by simp only [List.length_drop]; omega)]
      exact List.take_append_drop unit arr
    · rw [split_eq_last unit hu arr hc]
      by_cases he : arr.isEmpty
      · rw [if_pos he]
        rw [List.isEmpty_iff] at he
        simp [he]
      · rw [if_neg he]
        simp

theorem split_join {α : Type} (unit : Nat) (hu : 0 < unit) (arr : List α) :
    (split unit hu arr).flatten = arr :=
  split_join_aux unit hu arr.length arr (Nat.le_refl _)

theorem split_ne_nil {α : Type} (unit : Nat) (hu : 0 < unit) (arr : List α)
    (h : arr ≠ []) : split unit hu arr ≠ [] := by
  by_cases hc : unit ≤ arr.length
  · rw [split_eq_cons unit hu arr hc]
    exact List.cons_ne_nil _ _
  · rw [split_eq_last unit hu arr hc, if_neg (by simpa [List.isEmpty_iff] using h)]
    exact List.cons_ne_nil _ _

theorem mem_of_mem_split {α : Type} (unit : Nat) (hu : 0 < unit) (arr : List α)
    (sl : List α) (hsl : sl ∈ split unit hu arr) : ∀ c ∈ sl, c ∈ arr := by
  intro c hc
  have hm : c ∈ (split unit hu arr).flatten := List.mem_flatten.mpr ⟨sl, hsl, hc⟩
  rwa [split_join] at hm

theorem split_fuel_enough {α : Type} (unit : Nat) (hu : 0 < unit) :
    ∀ (fuel : Nat) (arr : List α) (acc : List (List α)), arr.length < fuel →
      split_fuel unit fuel arr acc = some (acc ++ split unit hu arr) := by
  intro fuel
  induction fuel with
  | zero => intro arr acc h; exact absurd h (Nat.not_lt_zero _)
  | succ fuel ih =>
    intro arr acc h
    by_cases hc : unit ≤ arr.length
    · rw [split_fuel, if_pos hc,
         ih (arr.drop unit) (acc ++ [arr.take unit])
           (by simp only [List.length_drop]; omega),
         split_eq_cons unit hu arr hc]
      simp
    · rw [split_fuel, if_neg hc, split_eq_last unit hu arr hc]
      by_cases he : arr.isEmpty
      · rw [if_pos he, if_pos he]
        simp
      · rw [if_neg he, if_neg he]

/-- C8: `split` terminates with slices that concatenate back to the input
whenever `unit ≥ 1` (fuel `length + 1` suffices for the loop); with
`unit = 0` the loop never terminates, whatever the input and however much
fuel it is given; and `bin_sections` computes `unit = (n + 127) / 128`,
which is `0` exactly when the file list is empty, so the binning phase is
total only when at least one object file survives resolution. -/
theorem split_termination (l : List Nat) (unit : Nat) (hu : 0 < unit) :
    (split_fuel unit (l.length + 1) l [] = some (split unit hu l) ∧
      (split unit hu l).flatten = l) ∧
    (∀ fuel acc, split_fuel 0 fuel l acc = none) ∧
    (bin_unit 0 = 0 ∧ (0 < l.length → 0 < bin_unit l.length)) := by
  refine ⟨⟨?_, split_join unit hu l⟩, ?_, rfl, ?_⟩
  · have h := split_fuel_enough unit hu (l.length + 1) l [] (by omega)
    simpa using h
  · intro fuel acc
    exact split_fuel_zero_unit fuel l acc
  · intro h
    simp only [bin_unit]
    omega

theorem split_termination_witness :
    (split_fuel 2 ([5, 6, 7].length + 1) [5, 6, 7] []
        = some (split 2 (by norm_num) [5, 6, 7]) ∧
      (split 2 (by norm_num) [5, 6, 7]).flatten = [5, 6, 7]) ∧
    (∀ fuel acc, split_fuel 0 fuel [5, 6, 7] acc = none) ∧
    (bin_unit 0 = 0 ∧ (0 < [5, 6, 7].length → 0 < bin_unit [5, 6, 7].length)) :=
  split_termination [5, 6, 7] 2 (by norm_num)

/-! ### `parse_filler` (C9) -/

/-- C9: `parse_filler` rejects (terminally) any argument that does not start
with `0x` or whose remainder is not a hexadecimal integer accepted by
`to_integer`; every accepted value `v` is truncated by the `(u8)` cast to
`v % 256` — a byte in `[0, 256)` — with no diagnostic for values exceeding
`0xFF`; and an absent `-filler` argument yields `-1`. -/
theorem parse_filler_mod256 (s : String) :
    (s.startsWith "0x" = false →
      parse_filler (some s) = .error "invalid argument") ∧
    (s.startsWith "0x" = true → to_integer_hex (s.toList.drop 2) = none →
      parse_filler (some s) = .error "invalid argument") ∧
    (∀ v : Int, s.startsWith "0x" = true →
      to_integer_hex (s.toList.drop 2) = some v →
      parse_filler (some s) = .ok (v % 256) ∧ 0 ≤ v % 256 ∧ v % 256 < 256) ∧
    parse_filler none = .ok (-1) := by
  refine ⟨?_, ?_, ?_, rfl⟩
  · intro h
    simp [parse_filler, h]
  · intro h1 h2
    simp only [String.toList] at h2
    simp [parse_filler, h1, h2]
  · intro v h1 h2
    refine ⟨by simp only [String.toList] at h2; simp [parse_filler, h1, h2],
      Int.emod_nonneg v (by norm_num), ?_⟩
    exact Int.emod_lt_of_pos v (by norm_num)

theorem parse_filler_mod256_witness :
    (("0x1ff" : String).startsWith "0x" = false →
      parse_filler (some "0x1ff") = .error "invalid argument") ∧
    (("0x1ff" : String).startsWith "0x" = true →
      to_integer_hex (("0x1ff" : String).toList.drop 2) = none →
      parse_filler (some "0x1ff") = .error "invalid argument") ∧
    (∀ v : Int, ("0x1ff" : String).startsWith "0x" = true →
      to_integer_hex (("0x1ff" : String).toList.drop 2) = some v →
      parse_filler (some "0x1ff") = .ok (v % 256) ∧ 0 ≤ v % 256 ∧ v % 256 < 256) ∧
    parse_filler none = .ok (-1) :=
  parse_filler_mod256 "0x1ff"

/-! ### `scan_rels_static` (C6) -/

theorem scan_sym_static_tls_error (c : FileCounts) (s : Symbol)
    (ho : s.owned = true)
    (h : s.has_tlsgd_rel = true ∨ s.has_tlsld_rel = true) :
    scan_sym_static c s = .error "not implemented" := by
  by_cases hgd : s.has_tlsgd_rel = true
  · simp [scan_sym_static, ho, hgd]
  · rcases h with h | h
    · exact absurd h hgd
    · simp [scan_sym_static, ho, hgd, h]

theorem scan_sym_static_error_msg (c : FileCounts) (s : Symbol) (e : String)
    (h : scan_sym_static c s = .error e) : e = "not implemented" := by
  cases ho : s.owned <;> cases hgd : s.has_tlsgd_rel <;>
    cases hld : s.has_tlsld_rel <;> simp_all [scan_sym_static]

theorem scan_sym_static_reldyn (c : FileCounts) (s : Symbol) (c1 : FileCounts)
    (s1 : Symbol) (h : scan_sym_static c s = .ok (c1, s1)) :
    c1.num_reldyn = c.num_reldyn := by
  unfold scan_sym_static at h
  repeat' split at h
  all_goals simp only [Except.ok.injEq, Prod.mk.injEq, reduceCtorEq] at h
  all_goals obtain ⟨h1, h2⟩ := h
  all_goals subst h1
  all_goals rfl

theorem scan_static_go_error (c : FileCounts) (syms : List Symbol)
    (h : ∃ s ∈ syms, s.owned = true ∧
        (s.has_tlsgd_rel = true ∨ s.has_tlsld_rel = true)) :
    scan_static_go c syms = .error "not implemented" := by
  induction syms generalizing c with
  | nil =>
    obtain ⟨s, hs, _⟩ := h
    simp at hs
  | cons s0 ss ih =>
    obtain ⟨s, hs, hso, hsb⟩ := h
    rcases List.mem_cons.mp hs with rfl | hs1
    · unfold scan_static_go
      rw [scan_sym_static_tls_error c s hso hsb]
    · unfold scan_static_go
      cases hh : scan_sym_static c s0 with
      | error e => rw [scan_sym_static_error_msg c s0 e hh]
      | ok p =>
        obtain ⟨c1, s1⟩ := p
        simp only [ih c1 ⟨s, hs1, hso, hsb⟩]

theorem scan_static_go_reldyn (c : FileCounts) (syms : List Symbol) :
    ∀ res, scan_static_go c syms = .ok res → res.2.num_reldyn = c.num_reldyn := by
  induction syms generalizing c with
  | nil =>
    intro res h
    simp only [scan_static_go, Except.ok.injEq] at h
    rw [← h]
  | cons s0 ss ih =>
    intro res h
    unfold scan_static_go at h
    cases hh : scan_sym_static c s0 with
    | error e =>
      simp only [hh, reduceCtorEq] at h
    | ok p =>
      obtain ⟨c1, s1⟩ := p
      simp only [hh] at h
      cases hg : scan_static_go c1 ss with
      | error e =>
        simp only [hg, reduceCtorEq] at h
      | ok q =>
        obtain ⟨qs, qc⟩ := q
        simp only [hg, Except.ok.injEq] at h
        have h1 : res.2 = qc := by rw [← h]
        have h2 := ih c1 (qs, qc) hg
        simp only at h2
        rw [h1, h2, scan_sym_static_reldyn c s0 c1 s1 hh]

/-- C6: in static mode, slot assignment raises the terminal
`"not implemented"` error whenever any owned symbol has a TLSGD or TLSLD
relocation need, and on success the file's `num_reldyn` counter is exactly
the initial zero — static slot assignment never emits dynamic relocations. -/
theorem scan_rels_static_behavior (syms : List Symbol) :
    ((∃ s ∈ syms, s.owned = true ∧
        (s.has_tlsgd_rel = true ∨ s.has_tlsld_rel = true)) →
      scan_rels_static syms = .error "not implemented") ∧
    (∀ res, scan_rels_static syms = .ok res → res.2.num_reldyn = 0) := by
  constructor
  · intro h
    exact scan_static_go_error {} syms h
  · intro res h
    exact scan_static_go_reldyn {} syms res h

theorem scan_rels_static_behavior_witness :
    ((∃ s ∈ [({ has_tlsgd_rel := true } : Symbol)], s.owned = true ∧
        (s.has_tlsgd_rel = true ∨ s.has_tlsld_rel = true)) →
      scan_rels_static [({ has_tlsgd_rel := true } : Symbol)]
        = .error "not implemented") ∧
    (∀ res, scan_rels_static [({ has_tlsgd_rel := true } : Symbol)] = .ok res →
      res.2.num_reldyn = 0) :=
  scan_rels_static_behavior [({ has_tlsgd_rel := true } : Symbol)]

/-! ### `scan_rels_dynamic` / PLT slots (C3) -/

theorem scan_sym_dynamic_plt (c : FileCounts) (s : Symbol) (hf : fresh_sym s) :
    ((scan_sym_dynamic c s).2.1.owned = s.owned ∧
     (scan_sym_dynamic c s).2.1.st_type = s.st_type ∧
     (scan_sym_dynamic c s).2.1.has_got_rel = s.has_got_rel ∧
     (scan_sym_dynamic c s).2.1.has_plt_rel = s.has_plt_rel) ∧
    (s.owned = true → s.has_plt_rel = true →
      (scan_sym_dynamic c s).2.1.plt_idx ≠ none ∧
      (s.has_got_rel = false →
        (scan_sym_dynamic c s).2.1.gotplt_idx ≠ none ∧
        (scan_sym_dynamic c s).2.1.relplt_idx ≠ none) ∧
      (s.has_got_rel = true →
        (scan_sym_dynamic c s).2.1.gotplt_idx = none ∧
        (scan_sym_dynamic c s).2.1.relplt_idx = none)) ∧
    (s.owned = true → s.has_plt_rel = false →
      (scan_sym_dynamic c s).2.1.plt_idx = none ∧
      (scan_sym_dynamic c s).2.1.gotplt_idx = none ∧
      (scan_sym_dynamic c s).2.1.relplt_idx = none) := by
  obtain ⟨h1, h2, h3, h4, h5, h6, h7⟩ := hf
  cases ho : s.owned <;> cases hg : s.has_got_rel <;> cases hp : s.has_plt_rel <;>
      cases hgd : s.has_tlsgd_rel <;> cases hld : s.has_tlsld_rel <;>
      cases htp : s.has_gottp_rel <;>
    simp_all [scan_sym_dynamic]

theorem scan_dyn_go_mem (c : FileCounts) (syms : List Symbol) :
    ∀ s1 ∈ (scan_dyn_go c syms).1,
      ∃ c1 s, s ∈ syms ∧ s1 = (scan_sym_dynamic c1 s).2.1 := by
  induction syms generalizing c with
  | nil => intro s1 h; simp [scan_dyn_go] at h
  | cons s ss ih =>
    intro s1 h
    simp only [scan_dyn_go, List.mem_cons] at h
    rcases h with h | h
    · exact ⟨c, s, List.mem_cons_self s ss, h⟩
    · obtain ⟨c1, s0, hs0, he⟩ := ih (scan_sym_dynamic c s).1 s1 h
      exact ⟨c1, s0, List.mem_cons_of_mem _ hs0, he⟩

theorem scan_sym_static_plt (c : FileCounts) (s : Symbol) (hf : fresh_sym s) :
    ∀ c1 s1, scan_sym_static c s = .ok (c1, s1) →
      (s1.plt_idx ≠ none ↔
        (s1.owned = true ∧ s1.has_plt_rel = true ∧ s1.st_type = STT_GNU_IFUNC)) ∧
      (s1.gotplt_idx ≠ none ↔
        (s1.owned = true ∧ s1.has_plt_rel = true ∧ s1.st_type = STT_GNU_IFUNC)) ∧
      (s1.relplt_idx ≠ none ↔
        (s1.owned = true ∧ s1.has_plt_rel = true ∧ s1.st_type = STT_GNU_IFUNC)) := by
  obtain ⟨h1, h2, h3, h4, h5, h6, h7⟩ := hf
  intro c1 s1 h
  cases ho : s.owned <;> cases hg : s.has_got_rel <;>
      cases hgd : s.has_tlsgd_rel <;> cases hld : s.has_tlsld_rel <;>
      cases htp : s.has_gottp_rel <;>
      by_cases hpi : s.has_plt_rel = true ∧ s.st_type = STT_GNU_IFUNC <;>
    simp_all [scan_sym_static] <;>
    (try (obtain ⟨hc1, hs1⟩ := h; subst hs1)) <;>
    simp_all [Classical.not_and_iff_or_not_not]

theorem scan_static_go_mem (c : FileCounts) (syms : List Symbol) :
    ∀ res, scan_static_go c syms = .ok res →
      ∀ s1 ∈ res.1, ∃ c1 c2 s2, s2 ∈ syms ∧
        scan_sym_static c1 s2 = .ok (c2, s1) := by
  induction syms generalizing c with
  | nil =>
    intro res h
    simp only [scan_static_go, Except.ok.injEq] at h
    intro s1 hs1
    rw [← h] at hs1
    simp at hs1
  | cons s ss ih =>
    intro res h
    unfold scan_static_go at h
    cases hh : scan_sym_static c s with
    | error e => simp only [hh, reduceCtorEq] at h
    | ok p =>
      obtain ⟨c1, s1h⟩ := p
      simp only [hh] at h
      cases hg : scan_static_go c1 ss with
      | error e => simp only [hg, reduceCtorEq] at h
      | ok q =>
        simp only [hg, Except.ok.injEq] at h
        intro s1 hs1
        rw [← h] at hs1
        simp only [List.mem_cons] at hs1
        rcases hs1 with rfl | hs1
        · exact ⟨c, c1, s, List.mem_cons_self s ss, hh⟩
        · obtain ⟨d1, d2, s2, hs2, he⟩ := ih c1 q hg s1 hs1
          exact ⟨d1, d2, s2, List.mem_cons_of_mem _ hs2, he⟩

theorem write_sym_events_relplt (is_static : Bool) (tls_end ridx : Nat)
    (s : Symbol) (ho : s.owned = true) (hgd : s.gotgd_idx = none)
    (hld : s.gotld_idx = none) (k : Nat) (hr : s.relplt_idx = some k) :
    ∃ evs ridx1, write_sym_events is_static tls_end ridx s = .ok (evs, ridx1) ∧
      (s.st_type = STT_GNU_IFUNC →
        WriteEvent.relplt_write (k * RELA_SIZE)
          (write_dynamic_rel R_X86_64_IRELATIVE s.gotplt_addr s.dynsym_idx
            (s.addr : Int)) ∈ evs) ∧
      (s.st_type ≠ STT_GNU_IFUNC →
        WriteEvent.relplt_write (k * RELA_SIZE)
          (write_dynamic_rel R_X86_64_JUMP_SLOT s.gotplt_addr s.dynsym_idx 0)
          ∈ evs) := by
  unfold write_sym_events
  rw [if_neg (by simp [ho] : ¬ s.owned = false)]
  rw [if_neg (by simp [hgd] : ¬ s.gotgd_idx ≠ none)]
  rw [if_neg (by simp [hld] : ¬ s.gotld_idx ≠ none)]
  simp only [hr]
  by_cases hty : s.st_type = STT_GNU_IFUNC
  · simp only [if_pos hty]
    exact ⟨_, _, rfl, fun _ => List.mem_append.mpr (Or.inr (by simp)),
      fun hn => absurd hty hn⟩
  · simp only [if_neg hty]
    exact ⟨_, _, rfl, fun hyy => absurd hyy hty,
      fun _ => List.mem_append.mpr (Or.inr (by simp))⟩

/-- C3 counterexample: a non-IFUNC symbol whose relocation needs include
both HAS_GOT_REL and HAS_PLT_REL is assigned a `plt_idx` but *no*
`gotplt_idx` or `relplt_idx` under dynamic slot assignment (the
GOTPLT/RELPLT branch is guarded by `sym->got_idx == -1`, which the
HAS_GOT_REL branch has just falsified), refuting the claim that every
non-IFUNC symbol with HAS_PLT_REL gets all three. -/
theorem scan_rels_dynamic_plt_counterexample :
    ((scan_rels_dynamic
        [{ owned := true, st_type := STT_FUNC, has_got_rel := true,
           has_plt_rel := true }]).1.getD 0 {}).has_plt_rel = true ∧
    ((scan_rels_dynamic
        [{ owned := true, st_type := STT_FUNC, has_got_rel := true,
           has_plt_rel := true }]).1.getD 0 {}).st_type ≠ STT_GNU_IFUNC ∧
    ((scan_rels_dynamic
        [{ owned := true, st_type := STT_FUNC, has_got_rel := true,
           has_plt_rel := true }]).1.getD 0 {}).plt_idx = some 0 ∧
    ((scan_rels_dynamic
        [{ owned := true, st_type := STT_FUNC, has_got_rel := true,
           has_plt_rel := true }]).1.getD 0 {}).gotplt_idx = none ∧
    ((scan_rels_dynamic
        [{ owned := true, st_type := STT_FUNC, has_got_rel := true,
           has_plt_rel := true }]).1.getD 0 {}).relplt_idx = none := by
  decide

/-- C3 (amended): under dynamic slot assignment every owned symbol with
HAS_PLT_REL gets a `plt_idx`, and it gets a `gotplt_idx` and a `relplt_idx`
exactly when HAS_GOT_REL is not also set (so `got_idx` is still `-1`) —
irrespective of the symbol's type, IFUNC included; symbols holding a RELPLT
slot (and no TLS GD/LD slot, which would abort the writer) are emitted by
`write_got_plt` as IRELATIVE when IFUNC-typed and as JUMP_SLOT otherwise;
and in static mode only STT_GNU_IFUNC symbols with HAS_PLT_REL receive
`plt_idx`/`gotplt_idx`/`relplt_idx`. -/
theorem scan_rels_plt_slot_assignment (syms : List Symbol)
    (hf : ∀ s ∈ syms, fresh_sym s) :
    (∀ s1 ∈ (scan_rels_dynamic syms).1,
      (s1.owned = true → s1.has_plt_rel = true →
        s1.plt_idx ≠ none ∧
        (s1.has_got_rel = false → s1.gotplt_idx ≠ none ∧ s1.relplt_idx ≠ none) ∧
        (s1.has_got_rel = true → s1.gotplt_idx = none ∧ s1.relplt_idx = none)) ∧
      (s1.owned = true → s1.has_plt_rel = false →
        s1.plt_idx = none ∧ s1.gotplt_idx = none ∧ s1.relplt_idx = none)) ∧
    (∀ (is_static : Bool) (tls_end ridx : Nat) (s1 : Symbol) (k : Nat),
      s1.owned = true → s1.gotgd_idx = none → s1.gotld_idx = none →
      s1.relplt_idx = some k →
      ∃ evs ridx1, write_sym_events is_static tls_end ridx s1 = .ok (evs, ridx1) ∧
        (s1.st_type = STT_GNU_IFUNC →
          WriteEvent.relplt_write (k * RELA_SIZE)
            (write_dynamic_rel R_X86_64_IRELATIVE s1.gotplt_addr s1.dynsym_idx
              (s1.addr : Int)) ∈ evs) ∧
        (s1.st_type ≠ STT_GNU_IFUNC →
          WriteEvent.relplt_write (k * RELA_SIZE)
            (write_dynamic_rel R_X86_64_JUMP_SLOT s1.gotplt_addr s1.dynsym_idx 0)
            ∈ evs)) ∧
    (∀ res, scan_rels_static syms = .ok res →
      ∀ s1 ∈ res.1,
        (s1.plt_idx ≠ none ↔
          (s1.owned = true ∧ s1.has_plt_rel = true ∧
            s1.st_type = STT_GNU_IFUNC)) ∧
        (s1.gotplt_idx ≠ none ↔
          (s1.owned = true ∧ s1.has_plt_rel = true ∧
            s1.st_type = STT_GNU_IFUNC)) ∧
        (s1.relplt_idx ≠ none ↔
          (s1.owned = true ∧ s1.has_plt_rel = true ∧
            s1.st_type = STT_GNU_IFUNC))) := by
  refine ⟨?_, ?_, ?_⟩
  · intro s1 hs1
    obtain ⟨c1, s, hs, he⟩ := scan_dyn_go_mem {} syms s1 hs1
    have hspec := scan_sym_dynamic_plt c1 s (hf s hs)
    obtain ⟨⟨f1, f2, f3, f4⟩, hyes, hno⟩ := hspec
    subst he
    constructor
    · intro ho hp
      rw [f1] at ho
      rw [f4] at hp
      obtain ⟨g1, g2, g3⟩ := hyes ho hp
      exact ⟨g1, fun hg => g2 (by rw [← f3]; exact hg),
        fun hg => g3 (by rw [← f3]; exact hg)⟩
    · intro ho hp
      rw [f1] at ho
      rw [f4] at hp
      exact hno ho hp
  · intro is_static tls_end ridx s1 k ho hgd hld hr
    exact write_sym_events_relplt is_static tls_end ridx s1 ho hgd hld k hr
  · intro res h s1 hs1
    obtain ⟨c1, c2, s2, hs2, he⟩ := scan_static_go_mem {} syms res h s1 hs1
    exact scan_sym_static_plt c1 s2 (hf s2 hs2) c2 s1 he

theorem scan_rels_plt_slot_assignment_witness :
    (∀ s1 ∈ (scan_rels_dynamic
        [({ owned := true, st_type := 10, has_plt_rel := true } : Symbol)]).1,
      (s1.owned = true → s1.has_plt_rel = true →
        s1.plt_idx ≠ none ∧
        (s1.has_got_rel = false → s1.gotplt_idx ≠ none ∧ s1.relplt_idx ≠ none) ∧
        (s1.has_got_rel = true → s1.gotplt_idx = none ∧ s1.relplt_idx = none)) ∧
      (s1.owned = true → s1.has_plt_rel = false →
        s1.plt_idx = none ∧ s1.gotplt_idx = none ∧ s1.relplt_idx = none)) ∧
    (∀ (is_static : Bool) (tls_end ridx : Nat) (s1 : Symbol) (k : Nat),
      s1.owned = true → s1.gotgd_idx = none → s1.gotld_idx = none →
      s1.relplt_idx = some k →
      ∃ evs ridx1, write_sym_events is_static tls_end ridx s1 = .ok (evs, ridx1) ∧
        (s1.st_type = STT_GNU_IFUNC →
          WriteEvent.relplt_write (k * RELA_SIZE)
            (write_dynamic_rel R_X86_64_IRELATIVE s1.gotplt_addr s1.dynsym_idx
              (s1.addr : Int)) ∈ evs) ∧
        (s1.st_type ≠ STT_GNU_IFUNC →
          WriteEvent.relplt_write (k * RELA_SIZE)
            (write_dynamic_rel R_X86_64_JUMP_SLOT s1.gotplt_addr s1.dynsym_idx 0)
            ∈ evs)) ∧
    (∀ res, scan_rels_static
        [({ owned := true, st_type := 10, has_plt_rel := true } : Symbol)]
          = .ok res →
      ∀ s1 ∈ res.1,
        (s1.plt_idx ≠ none ↔
          (s1.owned = true ∧ s1.has_plt_rel = true ∧
            s1.st_type = STT_GNU_IFUNC)) ∧
        (s1.gotplt_idx ≠ none ↔
          (s1.owned = true ∧ s1.has_plt_rel = true ∧
            s1.st_type = STT_GNU_IFUNC)) ∧
        (s1.relplt_idx ≠ none ↔
          (s1.owned = true ∧ s1.has_plt_rel = true ∧
            s1.st_type = STT_GNU_IFUNC))) :=
  scan_rels_plt_slot_assignment
    [({ owned := true, st_type := 10, has_plt_rel := true } : Symbol)]
    (by
      intro s hs
      simp only [List.mem_singleton] at hs
      subst hs
      exact ⟨rfl, rfl, rfl, rfl, rfl, rfl, rfl⟩)

/-! ### Slot uniqueness and the `scan_rels` prefix-sum (C4) -/

theorem nodup_append_of_bounds {l1 l2 : List Nat} {a b c : Nat}
    (h1 : l1.Nodup) (h2 : l2.Nodup)
    (hb1 : ∀ x ∈ l1, a ≤ x ∧ x < b) (hb2 : ∀ x ∈ l2, b ≤ x ∧ x < c)
    (hab : a ≤ b) (hbc : b ≤ c) :
    (l1 ++ l2).Nodup ∧ ∀ x ∈ l1 ++ l2, a ≤ x ∧ x < c := by
  constructor
  · refine List.Nodup.append h1 h2 ?_
    intro x hx1 hx2
    have g1 := hb1 x hx1
    have g2 := hb2 x hx2
    omega
  · intro x hx
    rcases List.mem_append.mp hx with hx | hx
    · have g := hb1 x hx
      omega
    · have g := hb2 x hx
      omega

theorem scan_sym_dynamic_slots (c : FileCounts) (s : Symbol) (hf : fresh_sym s) :
    (c.num_got ≤ (scan_sym_dynamic c s).1.num_got ∧
     c.num_plt ≤ (scan_sym_dynamic c s).1.num_plt ∧
     c.num_gotplt ≤ (scan_sym_dynamic c s).1.num_gotplt ∧
     c.num_relplt ≤ (scan_sym_dynamic c s).1.num_relplt) ∧
    ((got_slot_list (scan_sym_dynamic c s).2.1).Nodup ∧
      ∀ x ∈ got_slot_list (scan_sym_dynamic c s).2.1,
        c.num_got ≤ x ∧ x < (scan_sym_dynamic c s).1.num_got) ∧
    ((plt_slot_list (scan_sym_dynamic c s).2.1).Nodup ∧
      ∀ x ∈ plt_slot_list (scan_sym_dynamic c s).2.1,
        c.num_plt ≤ x ∧ x < (scan_sym_dynamic c s).1.num_plt) ∧
    ((gotplt_slot_list (scan_sym_dynamic c s).2.1).Nodup ∧
      ∀ x ∈ gotplt_slot_list (scan_sym_dynamic c s).2.1,
        c.num_gotplt ≤ x ∧ x < (scan_sym_dynamic c s).1.num_gotplt) ∧
    ((relplt_slot_list (scan_sym_dynamic c s).2.1).Nodup ∧
      ∀ x ∈ relplt_slot_list (scan_sym_dynamic c s).2.1,
        c.num_relplt ≤ x ∧ x < (scan_sym_dynamic c s).1.num_relplt) := by
  obtain ⟨h1, h2, h3, h4, h5, h6, h7⟩ := hf
  cases ho : s.owned <;> cases hg : s.has_got_rel <;> cases hp : s.has_plt_rel <;>
      cases hgd : s.has_tlsgd_rel <;> cases hld : s.has_tlsld_rel <;>
      cases htp : s.has_gottp_rel <;>
      simp_all [scan_sym_dynamic, got_slot_list, plt_slot_list, gotplt_slot_list,
        relplt_slot_list] <;>
    omega

theorem scan_dyn_go_spec (c : FileCounts) (syms : List Symbol)
    (hf : ∀ s ∈ syms, fresh_sym s) :
    (c.num_got ≤ (scan_dyn_go c syms).2.1.num_got ∧
     c.num_plt ≤ (scan_dyn_go c syms).2.1.num_plt ∧
     c.num_gotplt ≤ (scan_dyn_go c syms).2.1.num_gotplt ∧
     c.num_relplt ≤ (scan_dyn_go c syms).2.1.num_relplt) ∧
    ((((scan_dyn_go c syms).1.map got_slot_list).flatten).Nodup ∧
      ∀ x ∈ ((scan_dyn_go c syms).1.map got_slot_list).flatten,
        c.num_got ≤ x ∧ x < (scan_dyn_go c syms).2.1.num_got) ∧
    ((((scan_dyn_go c syms).1.map plt_slot_list).flatten).Nodup ∧
      ∀ x ∈ ((scan_dyn_go c syms).1.map plt_slot_list).flatten,
        c.num_plt ≤ x ∧ x < (scan_dyn_go c syms).2.1.num_plt) ∧
    ((((scan_dyn_go c syms).1.map gotplt_slot_list).flatten).Nodup ∧
      ∀ x ∈ ((scan_dyn_go c syms).1.map gotplt_slot_list).flatten,
        c.num_gotplt ≤ x ∧ x < (scan_dyn_go c syms).2.1.num_gotplt) ∧
    ((((scan_dyn_go c syms).1.map relplt_slot_list).flatten).Nodup ∧
      ∀ x ∈ ((scan_dyn_go c syms).1.map relplt_slot_list).flatten,
        c.num_relplt ≤ x ∧ x < (scan_dyn_go c syms).2.1.num_relplt) := by
  induction syms generalizing c with
  | nil => simp [scan_dyn_go]
  | cons s ss ih =>
    have hs := scan_sym_dynamic_slots c s (hf s (List.mem_cons_self s ss))
    have hrec := ih (scan_sym_dynamic c s).1
      (fun t ht => hf t (List.mem_cons_of_mem _ ht))
    obtain ⟨⟨a1, a2, a3, a4⟩, ⟨g1, g2⟩, ⟨p1, p2⟩, ⟨q1, q2⟩, ⟨r1, r2⟩⟩ := hs
    obtain ⟨⟨b1, b2, b3, b4⟩, ⟨G1, G2⟩, ⟨P1, P2⟩, ⟨Q1, Q2⟩, ⟨R1, R2⟩⟩ := hrec
    simp only [scan_dyn_go, List.map_cons, List.flatten_cons]
    refine ⟨⟨by omega, by omega, by omega, by omega⟩, ?_, ?_, ?_, ?_⟩
    · exact nodup_append_of_bounds g1 G1 g2 G2 a1 b1
    · exact nodup_append_of_bounds p1 P1 p2 P2 a2 b2
    · exact nodup_append_of_bounds q1 Q1 q2 Q2 a3 b3
    · exact nodup_append_of_bounds r1 R1 r2 R2 a4 b4

theorem scan_sym_static_slots (c : FileCounts) (s : Symbol) (hf : fresh_sym s) :
    ∀ c1 s1, scan_sym_static c s = .ok (c1, s1) →
      (c.num_got ≤ c1.num_got ∧ c.num_plt ≤ c1.num_plt ∧
       c.num_gotplt ≤ c1.num_gotplt ∧ c.num_relplt ≤ c1.num_relplt) ∧
      ((got_slot_list s1).Nodup ∧
        ∀ x ∈ got_slot_list s1, c.num_got ≤ x ∧ x < c1.num_got) ∧
      ((plt_slot_list s1).Nodup ∧
        ∀ x ∈ plt_slot_list s1, c.num_plt ≤ x ∧ x < c1.num_plt) ∧
      ((gotplt_slot_list s1).Nodup ∧
        ∀ x ∈ gotplt_slot_list s1, c.num_gotplt ≤ x ∧ x < c1.num_gotplt) ∧
      ((relplt_slot_list s1).Nodup ∧
        ∀ x ∈ relplt_slot_list s1, c.num_relplt ≤ x ∧ x < c1.num_relplt) := by
  obtain ⟨h1, h2, h3, h4, h5, h6, h7⟩ := hf
  intro c1 s1 h
  cases ho : s.owned <;> cases hg : s.has_got_rel <;>
      cases hgd : s.has_tlsgd_rel <;> cases hld : s.has_tlsld_rel <;>
      cases htp : s.has_gottp_rel <;>
      by_cases hpi : s.has_plt_rel = true ∧ s.st_type = STT_GNU_IFUNC <;>
      simp_all [scan_sym_static] <;>
      (try (obtain ⟨hc1, hs1⟩ := h; subst hc1; subst hs1)) <;>
      simp_all [got_slot_list, plt_slot_list, gotplt_slot_list, relplt_slot_list] <;>
    omega

theorem scan_static_go_slots (c : FileCounts) (syms : List Symbol)
    (hf : ∀ s ∈ syms, fresh_sym s) :
    ∀ res, scan_static_go c syms = .ok res →
      (c.num_got ≤ res.2.num_got ∧ c.num_plt ≤ res.2.num_plt ∧
       c.num_gotplt ≤ res.2.num_gotplt ∧ c.num_relplt ≤ res.2.num_relplt) ∧
      (((res.1.map got_slot_list).flatten).Nodup ∧
        ∀ x ∈ (res.1.map got_slot_list).flatten,
          c.num_got ≤ x ∧ x < res.2.num_got) ∧
      (((res.1.map plt_slot_list).flatten).Nodup ∧
        ∀ x ∈ (res.1.map plt_slot_list).flatten,
          c.num_plt ≤ x ∧ x < res.2.num_plt) ∧
      (((res.1.map gotplt_slot_list).flatten).Nodup ∧
        ∀ x ∈ (res.1.map gotplt_slot_list).flatten,
          c.num_gotplt ≤ x ∧ x < res.2.num_gotplt) ∧
      (((res.1.map relplt_slot_list).flatten).Nodup ∧
        ∀ x ∈ (res.1.map relplt_slot_list).flatten,
          c.num_relplt ≤ x ∧ x < res.2.num_relplt) := by
  induction syms generalizing c with
  | nil =>
    intro res h
    simp only [scan_static_go, Except.ok.injEq] at h
    rw [← h]
    simp
  | cons s ss ih =>
    intro res h
    unfold scan_static_go at h
    cases hh : scan_sym_static c s with
    | error e => simp only [hh, reduceCtorEq] at h
    | ok p =>
      obtain ⟨c1, s1⟩ := p
      simp only [hh] at h
      cases hg : scan_static_go c1 ss with
      | error e => simp only [hg, reduceCtorEq] at h
      | ok q =>
        obtain ⟨qs, qc⟩ := q
        simp only [hg, Except.ok.injEq] at h
        subst h
        have hs := scan_sym_static_slots c s (hf s (List.mem_cons_self s ss)) c1 s1 hh
        have hrec := ih c1 (fun t ht => hf t (List.mem_cons_of_mem _ ht)) (qs, qc) hg
        dsimp only at hrec ⊢
        obtain ⟨⟨a1, a2, a3, a4⟩, ⟨g1, g2⟩, ⟨p1, p2⟩, ⟨q1, q2⟩, ⟨r1, r2⟩⟩ := hs
        obtain ⟨⟨b1, b2, b3, b4⟩, ⟨G1, G2⟩, ⟨P1, P2⟩, ⟨Q1, Q2⟩, ⟨R1, R2⟩⟩ := hrec
        simp only [List.map_cons, List.flatten_cons]
        refine ⟨⟨by omega, by omega, by omega, by omega⟩, ?_, ?_, ?_, ?_⟩
        · exact nodup_append_of_bounds g1 G1 g2 G2 a1 b1
        · exact nodup_append_of_bounds p1 P1 p2 P2 a2 b2
        · exact nodup_append_of_bounds q1 Q1 q2 Q2 a3 b3
        · exact nodup_append_of_bounds r1 R1 r2 R2 a4 b4

theorem sumBy_take_succ (f : FileCounts → Nat) (cs : List FileCounts) (i : Nat)
    (h : i < cs.length) :
    sumBy f (cs.take (i + 1)) = sumBy f (cs.take i) + f (cs.getD i {}) := by
  induction cs generalizing i with
  | nil => simp at h
  | cons c0 cs ih =>
    cases i with
    | zero => simp [sumBy]
    | succ i =>
      have hrec := ih i (by simpa using h)
      simp only [List.take_succ_cons, sumBy, List.map_cons, List.sum_cons,
        List.getD_cons_succ] at hrec ⊢
      omega

theorem sumBy_take_step (f : FileCounts → Nat) (cs : List FileCounts) (n : Nat) :
    sumBy f (cs.take n) ≤ sumBy f (cs.take (n + 1)) := by
  rcases Nat.lt_or_ge n cs.length with h | h
  · rw [sumBy_take_succ f cs n h]
    exact Nat.le_add_right _ _
  · rw [List.take_of_length_le h, List.take_of_length_le (by omega)]

theorem sumBy_take_mono (f : FileCounts → Nat) (cs : List FileCounts) (i j : Nat)
    (hij : i ≤ j) : sumBy f (cs.take i) ≤ sumBy f (cs.take j) := by
  induction j with
  | zero =>
    have : i = 0 := by omega
    exact this ▸ Nat.le_refl _
  | succ j ih =>
    rcases Nat.lt_or_ge i (j + 1) with h | h
    · exact Nat.le_trans (ih (by omega)) (sumBy_take_step f cs j)
    · have : i = j + 1 := by omega
      exact this ▸ Nat.le_refl _

theorem sumBy_take_lt (f : FileCounts → Nat) (cs : List FileCounts) (i j : Nat)
    (hij : i < j) (hj : j ≤ cs.length) :
    sumBy f (cs.take i) + f (cs.getD i {}) ≤ sumBy f (cs.take j) := by
  rw [← sumBy_take_succ f cs i (by omega)]
  exact sumBy_take_mono f cs (i + 1) j hij

theorem assign_file_offsets_getD (hr : Bool) (t : TableSizes)
    (cs : List FileCounts) (i : Nat) (h : i < cs.length) :
    ((assign_file_offsets hr t cs).1.getD i {}).num = cs.getD i {} ∧
    ((assign_file_offsets hr t cs).1.getD i {}).got_offset
      = t.got + sumBy (fun c => c.num_got * GOT_SIZE) (cs.take i) ∧
    ((assign_file_offsets hr t cs).1.getD i {}).gotplt_offset
      = t.gotplt + sumBy (fun c => c.num_gotplt * GOT_SIZE) (cs.take i) ∧
    ((assign_file_offsets hr t cs).1.getD i {}).plt_offset
      = t.plt + sumBy (fun c => c.num_plt * PLT_SIZE) (cs.take i) ∧
    ((assign_file_offsets hr t cs).1.getD i {}).relplt_offset
      = t.relplt + sumBy (fun c => c.num_relplt * RELA_SIZE) (cs.take i) ∧
    ((assign_file_offsets hr t cs).1.getD i {}).reldyn_offset
      = (if hr then t.reldyn + sumBy (fun c => c.num_reldyn * RELA_SIZE) (cs.take i)
         else 0) := by
  induction cs generalizing t i with
  | nil => simp at h
  | cons c0 cs ih =>
    cases i with
    | zero => simp [assign_file_offsets, sumBy]
    | succ i =>
      have hrec := ih
        { got := t.got + c0.num_got * GOT_SIZE,
          gotplt := t.gotplt + c0.num_gotplt * GOT_SIZE,
          plt := t.plt + c0.num_plt * PLT_SIZE,
          relplt := t.relplt + c0.num_relplt * RELA_SIZE,
          reldyn := if hr then t.reldyn + c0.num_reldyn * RELA_SIZE else t.reldyn }
        i (by simpa using h)
      obtain ⟨e1, e2, e3, e4, e5, e6⟩ := hrec
      simp only [assign_file_offsets, List.getD_cons_succ, List.take_succ_cons,
        sumBy, List.map_cons, List.sum_cons] at e1 e2 e3 e4 e5 e6 ⊢
      refine ⟨e1, by omega, by omega, by omega, by omega, ?_⟩
      cases hr
      · simp only [Bool.false_eq_true, if_false] at e6 ⊢
        exact e6
      · simp only [if_true] at e6 ⊢
        omega

theorem assign_file_offsets_snd (hr : Bool) (t : TableSizes)
    (cs : List FileCounts) :
    (assign_file_offsets hr t cs).2.got
      = t.got + sumBy (fun c => c.num_got * GOT_SIZE) cs ∧
    (assign_file_offsets hr t cs).2.gotplt
      = t.gotplt + sumBy (fun c => c.num_gotplt * GOT_SIZE) cs ∧
    (assign_file_offsets hr t cs).2.plt
      = t.plt + sumBy (fun c => c.num_plt * PLT_SIZE) cs ∧
    (assign_file_offsets hr t cs).2.relplt
      = t.relplt + sumBy (fun c => c.num_relplt * RELA_SIZE) cs ∧
    (assign_file_offsets hr t cs).2.reldyn
      = (if hr then t.reldyn + sumBy (fun c => c.num_reldyn * RELA_SIZE) cs
         else t.reldyn) := by
  induction cs generalizing t with
  | nil => simp [assign_file_offsets, sumBy]
  | cons c0 cs ih =>
    have hrec := ih
      { got := t.got + c0.num_got * GOT_SIZE,
        gotplt := t.gotplt + c0.num_gotplt * GOT_SIZE,
        plt := t.plt + c0.num_plt * PLT_SIZE,
        relplt := t.relplt + c0.num_relplt * RELA_SIZE,
        reldyn := if hr then t.reldyn + c0.num_reldyn * RELA_SIZE else t.reldyn }
    obtain ⟨e1, e2, e3, e4, e5⟩ := hrec
    simp only [assign_file_offsets, sumBy, List.map_cons, List.sum_cons]
      at e1 e2 e3 e4 e5 ⊢
    refine ⟨by omega, by omega, by omega, by omega, ?_⟩
    cases hr
    · simp only [Bool.false_eq_true, if_false] at e5 ⊢
      exact e5
    · simp only [if_true] at e5 ⊢
      omega

/-- C4: after the sequential prefix-sum in `scan_rels`, every file's offset
into each synthetic table is the sum of the preceding files' contributions
(`num_X * entry size`), consecutive file ranges are contiguous, ranges of
distinct files are disjoint in the stable file order, and the final table
`sh_size` is the total; moreover every slot index assigned during slot
assignment (dynamic or static) is unique within its table and lies below the
owning file's count, hence inside the file's reserved range. -/
theorem scan_rels_offsets_disjoint (hr : Bool) (counts : List FileCounts)
    (filesSyms : List (List Symbol))
    (hf : ∀ fs ∈ filesSyms, ∀ s ∈ fs, fresh_sym s) :
    C4SumProp hr counts ∧ (∀ fs ∈ filesSyms, C4SlotProp fs) ∧
    (∀ fs ∈ filesSyms, C4SlotPropStatic fs) := by
  refine ⟨?_, ?_, ?_⟩
  · unfold C4SumProp
    refine ⟨?_, ?_, ?_, ?_⟩
    · intro i hi
      have h := assign_file_offsets_getD hr {} counts i hi
      dsimp only at h
      obtain ⟨e1, e2, e3, e4, e5, e6⟩ := h
      simp only [scan_rels_offsets]
      refine ⟨by omega, by omega, by omega, by omega, ?_, e1⟩
      cases hr
      · simpa using e6
      · simp only [if_true] at e6 ⊢
        omega
    · intro i hi
      have h1 := assign_file_offsets_getD hr {} counts (i + 1) hi
      have h2 := assign_file_offsets_getD hr {} counts i (by omega)
      have h3 := sumBy_take_succ (fun c => c.num_got * GOT_SIZE) counts i (by omega)
      dsimp only at h1 h2 h3
      obtain ⟨_, e2, _, _, _, _⟩ := h1
      obtain ⟨_, f2, _, _, _, _⟩ := h2
      simp only [scan_rels_offsets]
      omega
    · intro i j hij hj
      have h1 := assign_file_offsets_getD hr {} counts i (by omega)
      have h2 := assign_file_offsets_getD hr {} counts j hj
      have m1 := sumBy_take_lt (fun c => c.num_got * GOT_SIZE) counts i j hij
        (by omega)
      have m2 := sumBy_take_lt (fun c => c.num_gotplt * GOT_SIZE) counts i j hij
        (by omega)
      have m3 := sumBy_take_lt (fun c => c.num_plt * PLT_SIZE) counts i j hij
        (by omega)
      have m4 := sumBy_take_lt (fun c => c.num_relplt * RELA_SIZE) counts i j hij
        (by omega)
      dsimp only at h1 h2 m1 m2 m3 m4
      obtain ⟨_, a2, a3, a4, a5, _⟩ := h1
      obtain ⟨_, b2, b3, b4, b5, _⟩ := h2
      simp only [scan_rels_offsets]
      refine ⟨by omega, by omega, by omega, by omega⟩
    · have h := assign_file_offsets_snd hr {} counts
      dsimp only at h
      obtain ⟨e1, e2, e3, e4, e5⟩ := h
      simp only [scan_rels_offsets]
      refine ⟨by omega, by omega, by omega, by omega, ?_⟩
      cases hr
      · simpa using e5
      · simp only [if_true] at e5 ⊢
        omega
  · intro fs hfs
    unfold C4SlotProp
    have h := scan_dyn_go_spec {} fs (hf fs hfs)
    obtain ⟨_, ⟨g1, g2⟩, ⟨p1, p2⟩, ⟨q1, q2⟩, ⟨r1, r2⟩⟩ := h
    exact ⟨⟨g1, fun x hx => (g2 x hx).2⟩, ⟨p1, fun x hx => (p2 x hx).2⟩,
           ⟨q1, fun x hx => (q2 x hx).2⟩, ⟨r1, fun x hx => (r2 x hx).2⟩⟩
  · intro fs hfs
    unfold C4SlotPropStatic
    intro res h
    have hs := scan_static_go_slots {} fs (hf fs hfs) res h
    obtain ⟨_, ⟨g1, g2⟩, ⟨p1, p2⟩, ⟨q1, q2⟩, ⟨r1, r2⟩⟩ := hs
    exact ⟨⟨g1, fun x hx => (g2 x hx).2⟩, ⟨p1, fun x hx => (p2 x hx).2⟩,
           ⟨q1, fun x hx => (q2 x hx).2⟩, ⟨r1, fun x hx => (r2 x hx).2⟩⟩

theorem scan_rels_offsets_disjoint_witness :
    C4SumProp true
      [{ num_got := 1, num_plt := 1, num_gotplt := 1, num_relplt := 1,
         num_reldyn := 1 },
       { num_got := 2, num_plt := 0, num_gotplt := 1, num_relplt := 0,
         num_reldyn := 3 }] ∧
    (∀ fs ∈ [[({ owned := true, has_got_rel := true,
                 has_gottp_rel := true } : Symbol),
              ({ owned := true, has_plt_rel := true } : Symbol)]],
      C4SlotProp fs) ∧
    (∀ fs ∈ [[({ owned := true, has_got_rel := true,
                 has_gottp_rel := true } : Symbol),
              ({ owned := true, has_plt_rel := true } : Symbol)]],
      C4SlotPropStatic fs) :=
  scan_rels_offsets_disjoint true
    [{ num_got := 1, num_plt := 1, num_gotplt := 1, num_relplt := 1,
       num_reldyn := 1 },
     { num_got := 2, num_plt := 0, num_gotplt := 1, num_relplt := 0,
       num_reldyn := 3 }]
    [[({ owned := true, has_got_rel := true, has_gottp_rel := true } : Symbol),
      ({ owned := true, has_plt_rel := true } : Symbol)]]
    (by
      intro fs hfs s hs
      simp only [List.mem_singleton] at hfs
      subst hfs
      simp only [List.mem_cons, List.not_mem_nil, or_false] at hs
      rcases hs with rfl | rfl <;>
        exact ⟨rfl, rfl, rfl, rfl, rfl, rfl, rfl⟩)

/-! ### `write_got_plt` GOTPLT stride (C2) -/

/-- C2 bug exhibit: link two owned non-IFUNC symbols that both need a PLT
slot.  `scan_rels` reserves `num_gotplt * GOT_SIZE = 2 * 8 = 16` bytes of
`.got.plt` for the file and assigns `gotplt_idx` 0 and 1, but `write_got_plt`
stores the second symbol's GOTPLT seed (`plt_addr + 6 = 22`) at byte offset
`gotplt_idx * sizeof(ELF64LE::Sym) = 24` inside the file's range — an 8-byte
store at `[24, 32)`, entirely outside the 16-byte range the sizing loop
reserved (and not the 8-byte slot at `gotplt_idx * GOT_SIZE = 8` that the
claim and the spec describe).  The JUMP_SLOT relocations themselves land at
the correct `relplt_idx * 24` offsets. -/
theorem write_got_plt_gotplt_stride_bug :
    (let syms := (scan_rels_dynamic
        [({ owned := true, st_type := STT_FUNC, has_plt_rel := true,
            plt_addr := 0 } : Symbol),
         ({ owned := true, st_type := STT_FUNC, has_plt_rel := true,
            plt_addr := 16 } : Symbol)]).1
     let counts := (scan_rels_dynamic
        [({ owned := true, st_type := STT_FUNC, has_plt_rel := true,
            plt_addr := 0 } : Symbol),
         ({ owned := true, st_type := STT_FUNC, has_plt_rel := true,
            plt_addr := 16 } : Symbol)]).2.1
     let evs := (write_got_plt_file false 0 syms).toOption.getD []
     counts.num_gotplt * GOT_SIZE = 16 ∧
     (syms.getD 1 {}).gotplt_idx = some 1 ∧
     WriteEvent.relplt_write (0 * RELA_SIZE)
        (write_dynamic_rel R_X86_64_JUMP_SLOT 0 0 0) ∈ evs ∧
     WriteEvent.relplt_write (1 * RELA_SIZE)
        (write_dynamic_rel R_X86_64_JUMP_SLOT 0 0 0) ∈ evs ∧
     WriteEvent.gotplt_store (1 * SYM_SIZE) (16 + 6) ∈ evs ∧
     ¬ 1 * SYM_SIZE + GOT_SIZE ≤ counts.num_gotplt * GOT_SIZE) := by
  decide

/-! ### `bin_sections` and `set_isec_offsets` (C5) -/

theorem le_foldl_max (l : List Nat) (a : Nat) : a ≤ l.foldl Nat.max a := by
  induction l generalizing a with
  | nil => exact Nat.le_refl a
  | cons x xs ih => exact Nat.le_trans (Nat.le_max_left a x) (ih (max a x))

theorem mem_le_foldl_max (l : List Nat) (b : Nat) (h : b ∈ l) :
    ∀ a, b ≤ l.foldl Nat.max a := by
  induction l with
  | nil => simp at h
  | cons x xs ih =>
    intro a
    rcases List.mem_cons.mp h with rfl | h1
    · exact Nat.le_trans (Nat.le_max_right a b) (le_foldl_max xs (max a b))
    · exact ih h1 (max a x)

theorem foldl_max_cases (l : List Nat) : ∀ a,
    l.foldl Nat.max a = a ∨ l.foldl Nat.max a ∈ l := by
  induction l with
  | nil => exact fun a => Or.inl rfl
  | cons x xs ih =>
    intro a
    rcases ih (max a x) with h | h
    · rcases Nat.le_total a x with hax | hax
      · right
        rw [List.foldl_cons, h, Nat.max_eq_right hax]
        exact List.mem_cons_self x xs
      · left
        rw [List.foldl_cons, h, Nat.max_eq_left hax]
    · right
      exact List.mem_cons_of_mem x h

theorem flatMap_flatten {α β : Type} (L : List (List α)) (g : α → List β) :
    L.flatten.flatMap g = L.flatMap (fun l => l.flatMap g) := by
  induction L with
  | nil => rfl
  | cons l L ih => simp [List.flatten_cons, ih]

theorem getLastD_eq_of_ne_nil {α : Type} (l : List α) (h : l ≠ []) (a b : α) :
    l.getLastD a = l.getLastD b := by
  induction l generalizing a b with
  | nil => exact absurd rfl h
  | cons x xs ih =>
    cases xs with
    | nil => rfl
    | cons y ys =>
      simp only [List.getLastD_cons]

theorem shift_slice_mem (d : Nat) (cs : List InputChunk) :
    ∀ c1 ∈ shift_slice d cs, ∃ c ∈ cs, c1 = { c with offset := c.offset + d } := by
  intro c1 h
  obtain ⟨c, hc, he⟩ := List.mem_map.mp h
  exact ⟨c, hc, he.symm⟩

theorem shift_slice_pairwise (d : Nat) (cs : List InputChunk)
    (h : List.Pairwise chunk_end_le cs) :
    List.Pairwise chunk_end_le (shift_slice d cs) := by
  unfold shift_slice
  rw [List.pairwise_map]
  refine h.imp ?_
  intro a b hab
  simp only [chunk_end_le] at hab ⊢
  omega

theorem shift_slice_cores (d : Nat) (cs : List InputChunk) :
    (shift_slice d cs).map chunk_core = cs.map chunk_core := by
  unfold shift_slice
  rw [List.map_map]
  rfl

theorem layout_slice_spec (cs : List InputChunk) (off al : Nat)
    (hpow : ∀ c ∈ cs, IsPow2 c.sh_addralign) (hal : 0 < al) (halp : IsPow2 al) :
    ((layout_slice cs off al).1.map chunk_core = cs.map chunk_core) ∧
    off ≤ (layout_slice cs off al).2.1 ∧
    al ≤ (layout_slice cs off al).2.2 ∧
    IsPow2 (layout_slice cs off al).2.2 ∧
    (layout_slice cs off al).2.2
      = (cs.map (fun c => c.sh_addralign)).foldl Nat.max al ∧
    (∀ c ∈ (layout_slice cs off al).1,
        off ≤ c.offset ∧ c.offset + c.sh_size ≤ (layout_slice cs off al).2.1 ∧
        c.sh_addralign ≤ (layout_slice cs off al).2.2 ∧
        c.sh_addralign ∣ c.offset ∧ IsPow2 c.sh_addralign) ∧
    List.Pairwise chunk_end_le (layout_slice cs off al).1 := by
  induction cs generalizing off al with
  | nil =>
    refine ⟨rfl, Nat.le_refl _, Nat.le_refl _, halp, rfl, ?_, List.Pairwise.nil⟩
    intro c hc
    simp [layout_slice] at hc
  | cons c cs ih =>
    have hpc : IsPow2 c.sh_addralign := hpow c (List.mem_cons_self c cs)
    have hapos : 0 < c.sh_addralign := isPow2_pos hpc
    have hmax : 0 < max al c.sh_addralign := Nat.lt_of_lt_of_le hal (Nat.le_max_left _ _)
    have hmaxp : IsPow2 (max al c.sh_addralign) := isPow2_max halp hpc
    have hrec := ih (align_to off c.sh_addralign + c.sh_size) (max al c.sh_addralign)
      (fun t ht => hpow t (List.mem_cons_of_mem _ ht)) hmax hmaxp
    obtain ⟨e1, e2, e3, e4, e5, e6, e7⟩ := hrec
    have hoff1 : off ≤ align_to off c.sh_addralign := align_to_ge _ _
    refine ⟨?_, ?_, ?_, ?_, ?_, ?_, ?_⟩
    · simp only [layout_slice, List.map_cons, e1]
      rfl
    · simp only [layout_slice]
      omega
    · simp only [layout_slice]
      exact Nat.le_trans (Nat.le_max_left _ _) e3
    · simpa only [layout_slice] using e4
    · simp only [layout_slice, List.map_cons, List.foldl_cons]
      exact e5
    · intro c1 hc1
      simp only [layout_slice, List.mem_cons] at hc1
      rcases hc1 with rfl | hc1
      · refine ⟨hoff1, ?_, ?_, ?_, ?_⟩
        · simp only [layout_slice]
          have := e2
          omega
        · simp only [layout_slice]
          exact Nat.le_trans (Nat.le_max_right al _) e3
        · exact align_to_dvd off _ hapos
        · exact hpc
      · have := e6 c1 hc1
        simp only [layout_slice]
        refine ⟨by omega, this.2.1, this.2.2.1, this.2.2.2.1, this.2.2.2.2⟩
    · simp only [layout_slice]
      refine List.Pairwise.cons ?_ e7
      intro b hb
      have := (e6 b hb).1
      simp only [chunk_end_le]
      omega

theorem slice_sizes_cons (sl : List InputChunk) (slices : List (List InputChunk)) :
    slice_sizes (sl :: slices)
      = (layout_slice sl 0 1).2.1 :: slice_sizes slices := by
  simp [slice_sizes, slice_layouts]

theorem slice_aligns_cons (sl : List InputChunk) (slices : List (List InputChunk)) :
    slice_aligns (sl :: slices)
      = (layout_slice sl 0 1).2.2 :: slice_aligns slices := by
  simp [slice_aligns, slice_layouts]

theorem slice_starts_from_ne_nil (al cur : Nat) (szs : List Nat) (h : szs ≠ []) :
    slice_starts_from al cur szs ≠ [] := by
  cases szs with
  | nil => exact absurd rfl h
  | cons s szs => exact List.cons_ne_nil _ _

theorem slice_sizes_ne_nil (slices : List (List InputChunk)) (h : slices ≠ []) :
    slice_sizes slices ≠ [] := by
  cases slices with
  | nil => exact absurd rfl h
  | cons sl slices => rw [slice_sizes_cons]; exact List.cons_ne_nil _ _

theorem shifted_slices_cons (al cur : Nat) (sl : List InputChunk)
    (slices : List (List InputChunk)) :
    shifted_slices al cur (sl :: slices)
      = shift_slice cur (layout_slice sl 0 1).1 ::
        shifted_slices al (align_to (cur + (layout_slice sl 0 1).2.1) al) slices := by
  simp [shifted_slices, slice_layouts, slice_sizes, slice_starts_from]

theorem shifted_flatten_spec (al : Nat) (halp : IsPow2 al) :
    ∀ (slices : List (List InputChunk)) (cur : Nat), al ∣ cur →
      (∀ sl ∈ slices, ∀ c ∈ sl, IsPow2 c.sh_addralign) →
      (∀ sl ∈ slices, (layout_slice sl 0 1).2.2 ≤ al) →
      (∀ c1 ∈ (shifted_slices al cur slices).flatten,
          c1.sh_addralign ∣ c1.offset ∧ cur ≤ c1.offset ∧
          c1.offset + c1.sh_size
            ≤ (slice_starts_from al cur (slice_sizes slices)).getLastD cur
              + (slice_sizes slices).getLastD 0) ∧
      List.Pairwise chunk_end_le (shifted_slices al cur slices).flatten ∧
      (shifted_slices al cur slices).flatten.map chunk_core
        = slices.flatten.map chunk_core ∧
      cur ≤ (slice_starts_from al cur (slice_sizes slices)).getLastD cur
            + (slice_sizes slices).getLastD 0 := by
  intro slices
  induction slices with
  | nil =>
    intro cur hdvd hpow hle
    refine ⟨?_, ?_, rfl, ?_⟩
    · intro c1 h
      simp [shifted_slices, slice_layouts, slice_sizes, slice_starts_from] at h
    · simp [shifted_slices, slice_layouts, slice_sizes, slice_starts_from]
    · simp [slice_sizes, slice_layouts, slice_starts_from]
  | cons sl slices ih =>
    intro cur hdvd hpow hle
    have hal : 0 < al := isPow2_pos halp
    have hLS := layout_slice_spec sl 0 1 (hpow sl (List.mem_cons_self sl slices))
      (by omega) ⟨0, rfl⟩
    obtain ⟨L1, L2, L3, L4, L5, L6, L7⟩ := hLS
    have hdvd2 : al ∣ align_to (cur + (layout_slice sl 0 1).2.1) al :=
      align_to_dvd _ _ hal
    have hcur2 : cur + (layout_slice sl 0 1).2.1
        ≤ align_to (cur + (layout_slice sl 0 1).2.1) al := align_to_ge _ _
    have ihh := ih (align_to (cur + (layout_slice sl 0 1).2.1) al) hdvd2
      (fun t ht => hpow t (List.mem_cons_of_mem _ ht))
      (fun t ht => hle t (List.mem_cons_of_mem _ ht))
    obtain ⟨I1, I2, I3, I4⟩ := ihh
    have hhead : ∀ c1 ∈ shift_slice cur (layout_slice sl 0 1).1,
        c1.sh_addralign ∣ c1.offset ∧ cur ≤ c1.offset ∧
        c1.offset + c1.sh_size ≤ cur + (layout_slice sl 0 1).2.1 := by
      intro c1 hc1
      obtain ⟨c, hc, rfl⟩ := shift_slice_mem cur _ c1 hc1
      have hf := L6 c hc
      refine ⟨?_, ?_, ?_⟩
      · have hadvd : c.sh_addralign ∣ cur :=
          dvd_trans
            (pow2_dvd_of_le hf.2.2.2.2 halp
              (Nat.le_trans hf.2.2.1 (hle sl (List.mem_cons_self sl slices))))
            hdvd
        show c.sh_addralign ∣ c.offset + cur
        exact dvd_add hf.2.2.2.1 hadvd
      · show cur ≤ c.offset + cur
        omega
      · show c.offset + cur + c.sh_size ≤ cur + (layout_slice sl 0 1).2.1
        have := hf.2.1
        omega
    have hheadcore : (shift_slice cur (layout_slice sl 0 1).1).map chunk_core
        = sl.map chunk_core := by
      rw [shift_slice_cores]
      exact L1
    cases slices with
    | nil =>
      rw [shifted_slices_cons]
      have hz : shifted_slices al (align_to (cur + (layout_slice sl 0 1).2.1) al)
          ([] : List (List InputChunk)) = [] := by
        simp [shifted_slices, slice_layouts, slice_sizes, slice_starts_from]
      rw [hz, slice_sizes_cons]
      simp only [slice_sizes, slice_layouts, List.map_nil, slice_starts_from,
        List.flatten_cons, List.flatten_nil, List.append_nil, List.getLastD_cons]
      refine ⟨?_, ?_, ?_, ?_⟩
      · intro c1 hc1
        have := hhead c1 hc1
        simpa using this
      · exact shift_slice_pairwise cur _ L7
      · simpa using hheadcore
      · simp
    | cons sl2 slices2 =>
      have hne : slice_sizes (sl2 :: slices2) ≠ [] :=
        slice_sizes_ne_nil _ (List.cons_ne_nil _ _)
      have hnes : slice_starts_from al
          (align_to (cur + (layout_slice sl 0 1).2.1) al)
          (slice_sizes (sl2 :: slices2)) ≠ [] :=
        slice_starts_from_ne_nil _ _ _ hne
      -- rewrite the getLastD of the extended lists to the tail versions
      have hlast1 : (slice_starts_from al cur (slice_sizes (sl :: sl2 :: slices2))).getLastD cur
          = (slice_starts_from al (align_to (cur + (layout_slice sl 0 1).2.1) al)
              (slice_sizes (sl2 :: slices2))).getLastD
              (align_to (cur + (layout_slice sl 0 1).2.1) al) := by
        rw [slice_sizes_cons]
        rw [show slice_starts_from al cur
            ((layout_slice sl 0 1).2.1 :: slice_sizes (sl2 :: slices2))
            = cur :: slice_starts_from al
                (align_to (cur + (layout_slice sl 0 1).2.1) al)
                (slice_sizes (sl2 :: slices2)) from rfl]
        rw [List.getLastD_cons]
        exact getLastD_eq_of_ne_nil _ hnes _ _
      have hlast2 : (slice_sizes (sl :: sl2 :: slices2)).getLastD 0
          = (slice_sizes (sl2 :: slices2)).getLastD 0 := by
        rw [slice_sizes_cons, List.getLastD_cons]
        exact getLastD_eq_of_ne_nil _ hne _ _
      rw [shifted_slices_cons]
      simp only [List.flatten_cons]
      refine ⟨?_, ?_, ?_, ?_⟩
      · intro c1 hc1
        rw [hlast1, hlast2]
        rcases List.mem_append.mp hc1 with hc1 | hc1
        · have h1 := hhead c1 hc1
          refine ⟨h1.1, h1.2.1, ?_⟩
          have := h1.2.2
          omega
        · have h1 := I1 c1 hc1
          refine ⟨h1.1, by omega, h1.2.2⟩
      · rw [List.pairwise_append]
        refine ⟨shift_slice_pairwise cur _ L7, I2, ?_⟩
        intro a ha b hb
        have h1 := hhead a ha
        have h2 := I1 b hb
        simp only [chunk_end_le]
        omega
      · rw [List.map_append, hheadcore, I3]
        simp [List.map_append]
      · rw [hlast1, hlast2]
        omega

theorem bin_sections_eq (files : List (List (Option InputChunk)))
    (h : files ≠ []) (j : Nat) :
    bin_sections files h j
      = files.flatMap (fun f => (file_isecs f).filter (fun c => c.osec_idx == j)) := by
  unfold bin_sections shard_members
  rw [← flatMap_flatten, split_join]

theorem osec_align_ge (slices : List (List InputChunk)) (sl : List InputChunk)
    (h : sl ∈ slices) : (layout_slice sl 0 1).2.2 ≤ osec_align slices := by
  have hm : (layout_slice sl 0 1).2.2 ∈ slice_aligns slices := by
    unfold slice_aligns slice_layouts
    rw [List.map_map]
    exact List.mem_map.mpr ⟨sl, h, rfl⟩
  exact mem_le_foldl_max _ _ hm 0

theorem osec_align_pos (slices : List (List InputChunk)) (h : slices ≠ [])
    (hpow : ∀ sl ∈ slices, ∀ c ∈ sl, IsPow2 c.sh_addralign) :
    0 < osec_align slices := by
  cases slices with
  | nil => exact absurd rfl h
  | cons sl slices =>
    have h1 : 1 ≤ (layout_slice sl 0 1).2.2 :=
      (layout_slice_spec sl 0 1 (hpow sl (List.mem_cons_self sl slices))
        (by omega) ⟨0, rfl⟩).2.2.1
    have h2 := osec_align_ge (sl :: slices) sl (List.mem_cons_self sl slices)
    omega

theorem osec_align_pow2 (slices : List (List InputChunk)) (h : slices ≠ [])
    (hpow : ∀ sl ∈ slices, ∀ c ∈ sl, IsPow2 c.sh_addralign) :
    IsPow2 (osec_align slices) := by
  rcases foldl_max_cases (slice_aligns slices) 0 with hc | hc
  · have := osec_align_pos slices h hpow
    have h0 : osec_align slices = 0 := hc
    omega
  · have hc1 : osec_align slices ∈ slice_aligns slices := hc
    unfold slice_aligns slice_layouts at hc1
    rw [List.map_map] at hc1
    obtain ⟨sl, hsl, he⟩ := List.mem_map.mp hc1
    have := (layout_slice_spec sl 0 1 (hpow sl hsl) (by omega) ⟨0, rfl⟩).2.2.2.1
    exact he ▸ this

theorem set_isec_offsets_osec_eq (members : List InputChunk)
    (h : (0 : Nat) < 100000) :
    set_isec_offsets_osec members
      = ((shifted_slices (osec_align (split 100000 h members)) 0
            (split 100000 h members)).flatten,
         (slice_starts_from (osec_align (split 100000 h members)) 0
            (slice_sizes (split 100000 h members))).getLastD 0
           + (slice_sizes (split 100000 h members)).getLastD 0,
         osec_align (split 100000 h members)) := rfl

theorem c5prop_of (members : List InputChunk)
    (hpow : ∀ c ∈ members, IsPow2 c.sh_addralign) (hne : members ≠ []) :
    C5Prop members := by
  have h100 : (0 : Nat) < 100000 := by omega
  unfold C5Prop
  rw [set_isec_offsets_osec_eq members h100]
  dsimp only
  have hsl_pow : ∀ sl ∈ split 100000 h100 members, ∀ c ∈ sl,
      IsPow2 c.sh_addralign :=
    fun sl hsl c hc => hpow c (mem_of_mem_split 100000 h100 members sl hsl c hc)
  have hsl_ne : split 100000 h100 members ≠ [] := split_ne_nil 100000 h100 members hne
  have hjoin : (split 100000 h100 members).flatten = members :=
    split_join 100000 h100 members
  have hal_pos := osec_align_pos _ hsl_ne hsl_pow
  have hal_pow := osec_align_pow2 _ hsl_ne hsl_pow
  have hle : ∀ sl ∈ split 100000 h100 members,
      (layout_slice sl 0 1).2.2 ≤ osec_align (split 100000 h100 members) :=
    fun sl hsl => osec_align_ge _ sl hsl
  have main := shifted_flatten_spec (osec_align (split 100000 h100 members))
    hal_pow (split 100000 h100 members) 0 (dvd_zero _) hsl_pow hle
  obtain ⟨M1, M2, M3, M4⟩ := main
  refine ⟨?_, ?_, M2, ?_, ?_⟩
  · rw [M3, hjoin]
  · intro c hc
    exact (M1 c hc).1
  · intro c hc
    exact (M1 c hc).2.2
  · -- sh_addralign equals the maximum member alignment
    have hub1 : ∀ c ∈ members,
        c.sh_addralign ≤ osec_align (split 100000 h100 members) := by
      intro c hc
      have hcf : c ∈ (split 100000 h100 members).flatten := by rw [hjoin]; exact hc
      obtain ⟨sl, hsl, hcsl⟩ := List.mem_flatten.mp hcf
      have L5 := (layout_slice_spec sl 0 1 (hsl_pow sl hsl) (by omega)
        ⟨0, rfl⟩).2.2.2.2.1
      have h1 : c.sh_addralign ≤ (layout_slice sl 0 1).2.2 := by
        rw [L5]
        exact mem_le_foldl_max _ _ (List.mem_map.mpr ⟨c, hcsl, rfl⟩) 1
      exact Nat.le_trans h1 (hle sl hsl)
    obtain ⟨c0, hc0⟩ : ∃ c0, c0 ∈ members := by
      cases members with
      | nil => exact absurd rfl hne
      | cons c0 cs => exact ⟨c0, List.mem_cons_self c0 cs⟩
    have hrhs1 : 1 ≤ (members.map (fun c => c.sh_addralign)).foldl Nat.max 0 := by
      have h1 := mem_le_foldl_max (members.map (fun c => c.sh_addralign))
        c0.sh_addralign (List.mem_map.mpr ⟨c0, hc0, rfl⟩) 0
      have h2 := isPow2_pos (hpow c0 hc0)
      omega
    apply Nat.le_antisymm
    · rcases foldl_max_cases (slice_aligns (split 100000 h100 members)) 0 with hc | hc
      · have h0 : osec_align (split 100000 h100 members) = 0 := hc
        rw [h0]
        exact Nat.zero_le _
      · have hc1 : osec_align (split 100000 h100 members)
            ∈ slice_aligns (split 100000 h100 members) := hc
        unfold slice_aligns slice_layouts at hc1
        rw [List.map_map] at hc1
        obtain ⟨sl, hsl, he⟩ := List.mem_map.mp hc1
        have L5 := (layout_slice_spec sl 0 1 (hsl_pow sl hsl) (by omega)
          ⟨0, rfl⟩).2.2.2.2.1
        rw [← he]
        show (layout_slice sl 0 1).2.2 ≤ _
        rw [L5]
        rcases foldl_max_cases (sl.map (fun c => c.sh_addralign)) 1 with hc2 | hc2
        · rw [hc2]
          exact hrhs1
        · obtain ⟨c, hcsl, hce⟩ := List.mem_map.mp hc2
          rw [← hce]
          exact mem_le_foldl_max _ _
            (List.mem_map.mpr
              ⟨c, mem_of_mem_split 100000 h100 members sl hsl c hcsl, rfl⟩) 0
    · rcases foldl_max_cases (members.map (fun c => c.sh_addralign)) 0 with hc | hc
      · rw [hc]
        exact Nat.zero_le _
      · obtain ⟨c, hcm, hce⟩ := List.mem_map.mp hc
        rw [← hce]
        exact hub1 c hcm

/-- C5: after `bin_sections` and `set_isec_offsets`, the member list of each
output section is the concatenation of the per-shard contributions in shard
order (each shard's contribution in file-then-section order), which equals
the plain file-then-section order over the whole file list; and for a
non-empty member list, `set_isec_offsets` keeps the members unchanged apart
from the offsets, aligns every member to its own `sh_addralign`, produces
pairwise disjoint byte ranges in member order all below the computed
`sh_size`, and sets `sh_addralign` to the maximum member alignment. -/
theorem bin_isec_layout (files : List (List (Option InputChunk)))
    (hfne : files ≠ []) (j : Nat)
    (hpow : ∀ c ∈ bin_sections files hfne j, IsPow2 c.sh_addralign)
    (hne : bin_sections files hfne j ≠ []) :
    bin_sections files hfne j
      = files.flatMap (fun f => (file_isecs f).filter (fun c => c.osec_idx == j)) ∧
    C5Prop (bin_sections files hfne j) :=
  ⟨bin_sections_eq files hfne j, c5prop_of (bin_sections files hfne j) hpow hne⟩

theorem bin_isec_layout_witness :
    bin_sections
        [[some { osec_idx := 0, sh_addralign := 4, sh_size := 10 }, none,
          some { osec_idx := 1, sh_addralign := 1, sh_size := 3 }],
         [some { osec_idx := 0, sh_addralign := 8, sh_size := 5 }]]
        (by simp) 0
      = [[some ({ osec_idx := 0, sh_addralign := 4, sh_size := 10 } : InputChunk),
          none,
          some { osec_idx := 1, sh_addralign := 1, sh_size := 3 }],
         [some ({ osec_idx := 0, sh_addralign := 8, sh_size := 5 } : InputChunk)]].flatMap
          (fun f => (file_isecs f).filter (fun c => c.osec_idx == 0)) ∧
    C5Prop (bin_sections
        [[some { osec_idx := 0, sh_addralign := 4, sh_size := 10 }, none,
          some { osec_idx := 1, sh_addralign := 1, sh_size := 3 }],
         [some { osec_idx := 0, sh_addralign := 8, sh_size := 5 }]]
        (by simp) 0) :=
  bin_isec_layout
    [[some { osec_idx := 0, sh_addralign := 4, sh_size := 10 }, none,
      some { osec_idx := 1, sh_addralign := 1, sh_size := 3 }],
     [some { osec_idx := 0, sh_addralign := 8, sh_size := 5 }]]
    (by simp) 0
    (by
      intro c hc
      rw [bin_sections_eq] at hc
      have he : ([[some ({ osec_idx := 0, sh_addralign := 4, sh_size := 10 } : InputChunk),
            none,
            some { osec_idx := 1, sh_addralign := 1, sh_size := 3 }],
           [some ({ osec_idx := 0, sh_addralign := 8, sh_size := 5 } : InputChunk)]].flatMap
            (fun f => (file_isecs f).filter (fun c => c.osec_idx == 0)))
          = [({ osec_idx := 0, sh_addralign := 4, sh_size := 10 } : InputChunk),
             ({ osec_idx := 0, sh_addralign := 8, sh_size := 5 } : InputChunk)] := by
        decide
      rw [he] at hc
      simp only [List.mem_cons, List.not_mem_nil, or_false] at hc
      rcases hc with rfl | rfl
      · exact ⟨2, rfl⟩
      · exact ⟨3, rfl⟩)
    (by
      rw [bin_sections_eq]
      decide)

end Mold

